import Mathlib

/-!
Migration test (`migration/migration.c`): register comparator, elapsed-time guard,
platform call channel and validation driver

Shallow embedding of the C program.  Unsigned 64-bit and 32-bit machine words are
natural numbers; every operation that can wrap carries its modulus explicitly.
Arrays indexed by a register id are functions from the id; only the ids the C
arrays have (0..1023) are ever read.
-/

namespace Migration

/-! ## Constants (`#define`s) -/

/-- Token of the time-of-day platform call. -/
def RTAS_GET_TIME_OF_DAY : Nat := 0x2001
/-- Token of the terminate platform call. -/
def RTAS_OS_TERM : Nat := 0x201f
/-- Register id of the decrementer. -/
def DECR : Nat := 0x16
/-- Register id of the time base. -/
def TBL : Nat := 0x10c
/-- Register id of the virtual time base. -/
def VTB : Nat := 0x351
/-- About 160ms in time-base units, enough for a local migration. -/
def MIGRATION_DELAY : Nat := 0x5000000

/-- Modulus of `uint64_t` arithmetic. -/
def U64 : Nat := 2 ^ 64
/-- Modulus of `uint32_t` arithmetic. -/
def U32 : Nat := 2 ^ 32

/-! ## Data model -/

/-- Record `struct one_spr`: `name` is a `const char *` (`none` is the null pointer),
`dval` a `uint64_t`. -/
structure one_spr where
  name : Option String
  dval : Nat
deriving DecidableEq, Repr

/-- Pointer `int32_t *rets` of the call buffer: null (zero-initialised global) or the
address of the buffer's own `args` array, the only value the program stores in it. -/
inductive RetPtr where
  | null
  | args
deriving DecidableEq, Repr

/-- Record `struct rtas`, the call buffer.  Words are stored as their 32-bit patterns. -/
structure rtas where
  token : Nat
  nargs : Nat
  nret : Nat
  args : Fin 16 → Nat
  rets : RetPtr
deriving DecidableEq

/-- One call of the diagnostic output primitives (`DEBUG` is defined, so `print` is `puts`).
`putchar c` is the call `putchar(c)`; `time` is a call of `print_time`, whose digits
are the time base at that moment;
`regs x y sep` is the call `print_regs(x, y, sep)`. -/
inductive Out where
  | puts (str : String)
  | putchar (c : Nat)
  | time
  | regs (x y : Nat) (sep : String)
deriving DecidableEq, Repr

/-- Global variables of the program, with the diagnostic stream written so far and the
bookkeeping of the external collaborators: the buffers handed to `rtas_call`, oldest
first, and how many times each of `mfspr(TBL)` and `mfspr(VTB)` (in the guard),
`init_sprs` and `save_sprs` has been executed. -/
structure State where
  tb_freq : Nat
  delay : Nat
  saved_sprs : Nat → one_spr
  default_sprs : Nat → one_spr
  rtas_argbuf : rtas
  out : List Out
  calls : List rtas
  n_tbl : Nat
  n_vtb : Nat
  n_init : Nat
  n_save : Nat

/-- Name printed for a register: `print(default_sprs[i].name)`; the callers only reach
it with a non-null name. -/
def name_str (n : Option String) : String := n.getD ""

/-- Initialiser of `default_sprs`: only `[DECR] = { "DECR", 0x007afafadeadbeef }`
(`LARGE_DECR` is defined; `strfy(DECR)` stringifies the unexpanded token). -/
def default_sprs_init : Nat → one_spr := fun i =>
  if i = DECR then { name := some "DECR", dval := 0x007afafadeadbeef }
  else { name := none, dval := 0 }

/-! ## Comparator -/

/-- Function `print_spr_neq(i)`. -/
def print_spr_neq (s : State) (i : Nat) : List Out :=
  [Out.puts "\n", Out.time, Out.puts (name_str (s.default_sprs i).name),
    Out.regs (s.default_sprs i).dval (s.saved_sprs i).dval " != "]

/-- Function `print_spr_eq(i)`. -/
def print_spr_eq (s : State) (i : Nat) : List Out :=
  [Out.puts "\n", Out.time, Out.puts (name_str (s.default_sprs i).name),
    Out.regs (s.default_sprs i).dval (s.saved_sprs i).dval " == "]

/-- Function `spr_equal(i)`: for `DECR` the unsigned distance of the two values is
compared with `tb_freq * delay + MIGRATION_DELAY` (all in `uint64_t`); every other id
is compared exactly. -/
def spr_equal (s : State) (i : Nat) : Bool :=
  let x := (s.default_sprs i).dval
  let y := (s.saved_sprs i).dval
  if i = DECR then
    let threshold := ((s.tb_freq * s.delay) % U64 + MIGRATION_DELAY) % U64
    let diff := if x > y then (x - y) % U64 else (y - x) % U64
    decide (diff < threshold)
  else
    decide (x = y)

/-- The `for (i = 0; i < 1023; i++)` loop of `cmp_regs`, with `n` the number of ids
still to visit (`1023 - i`) and `out` the diagnostic stream.  Returns `fail` and the
stream. -/
def cmp_regs_loop (s : State) : Nat → Nat → List Out → Nat × List Out
  | 0, _, out => (0, out)
  | n + 1, i, out =>
    match (s.default_sprs i).name with
    | none => cmp_regs_loop s n (i + 1) out
    | some _ =>
      if !spr_equal s i then
        (1, out ++ [Out.puts "."] ++ print_spr_neq s i)
      else
        cmp_regs_loop s n (i + 1) (out ++ [Out.puts "."] ++ print_spr_eq s i)

/-- Function `cmp_regs()`: returns `fail` and the state with the diagnostics appended. -/
def cmp_regs (s : State) : Nat × State :=
  let r := cmp_regs_loop s 1023 0 (s.out ++ [Out.puts "Checking SPRs"])
  if r.1 = 0 then (r.1, { s with out := r.2 ++ [Out.puts "OK\n"] })
  else (r.1, { s with out := r.2 })

/-! ## Vocabulary of the statements -/

/-- An id is tracked when its entry of `default_sprs` has a name. -/
def tracked (s : State) (i : Nat) : Bool := (s.default_sprs i).name.isSome

/-- The output of the loop of `cmp_regs` for ids that compare equal: for each id of the
list, in order, the dot and the call of `print_spr_eq`. -/
def eq_entries (s : State) (ids : List Nat) : List Out :=
  ids.flatMap fun j => Out.puts "." :: print_spr_eq s j

/-- The tracked ids below `m`, in ascending order. -/
def tracked_below (s : State) (m : Nat) : List Nat := (List.range m).filter (tracked s)

/-- The threshold of the decrementer policy before any reduction modulo `2 ^ 64`. -/
def threshold (s : State) : Nat := s.tb_freq * s.delay + MIGRATION_DELAY

/-! ## External collaborators -/

/-- Everything the program reaches through `extern` declarations, inline assembly or the
linker.  `rtas_call k b` is what the platform leaves in the call buffer when the call
number `k` (counting from 0) is entered with buffer `b`, or `none` when that call does not
come back; `mfspr_TBL k` and `mfspr_VTB k` are the values of the `k`-th read of each
counter made by the guard; `init_sprs k` and `save_sprs k` are what the `k`-th call of
each leaves in the table it is handed; `str_FAIL` and `str_PASS` are the addresses of
the two string literals. -/
structure World where
  rtas_call : Nat → rtas → Option rtas
  mfspr_TBL : Nat → Nat
  mfspr_VTB : Nat → Nat
  init_sprs : Nat → (Nat → one_spr) → (Nat → one_spr)
  save_sprs : Nat → (Nat → one_spr) → (Nat → one_spr)
  str_FAIL : Nat
  str_PASS : Nat

/-- How a piece of the program ends: it returns a value, or the program stops inside
a platform call that does not come back (`halt`), or it reads through the null `rets`
pointer (`fault`), or the fuel given to a loop of the model ran out (`timeout`). -/
inductive Outcome (α : Type) where
  | ret (a : α)
  | halt (s : State)
  | fault
  | timeout

/-- Sequencing of outcomes. -/
def Outcome.bind {α β : Type} (x : Outcome α) (f : α → Outcome β) : Outcome β :=
  match x with
  | .ret a => f a
  | .halt s => .halt s
  | .fault => .fault
  | .timeout => .timeout

/-! ## Platform call channel -/

/-- Builtin `__builtin_bswap32` on a 32-bit pattern: the four bytes in reverse order. -/
def bswap32 (x : Nat) : Nat :=
  (x % 256) * 2 ^ 24 + (x / 2 ^ 8 % 256) * 2 ^ 16 + (x / 2 ^ 16 % 256) * 2 ^ 8
    + (x / 2 ^ 24 % 256)

/-- Function `tb_init()`. -/
def tb_init (s : State) : State := { s with tb_freq := 512000000 }

/-- Function `rtas_init()`. -/
def rtas_init (s : State) : State :=
  { s with rtas_argbuf := { s.rtas_argbuf with rets := RetPtr.args } }

/-- Function `rtas_load_retval(str)`, `str` being the address of the string; `strp` is
the address cut to 32 bits. -/
def rtas_load_retval (str : Nat) (s : State) : State :=
  let strp := str % U32
  { s with rtas_argbuf :=
      { s.rtas_argbuf with
        token := bswap32 RTAS_OS_TERM
        nargs := bswap32 1
        nret := bswap32 1
        args := Function.update s.rtas_argbuf.args 0 (bswap32 strp) } }

/-- External `rtas_call()`: the buffer is logged and the platform's answer, if the call
comes back, replaces it. -/
def rtas_call (w : World) (s : State) : Outcome State :=
  match w.rtas_call s.calls.length s.rtas_argbuf with
  | some b => .ret { s with rtas_argbuf := b, calls := s.calls ++ [s.rtas_argbuf] }
  | none => .halt { s with calls := s.calls ++ [s.rtas_argbuf] }

/-- Function `assert(cond)`. -/
def assert (w : World) (cond : Bool) (s : State) : Outcome State :=
  if cond then .ret s
  else rtas_call w (rtas_load_retval w.str_FAIL s)

/-- Read of `rtas_argbuf.rets[k]`. -/
def rets_read (b : rtas) (k : Fin 16) : Option Nat :=
  match b.rets with
  | .null => none
  | .args => some (b.args k)

/-- Decoding step of `make_ts`, from the buffer as the platform left it: the values of
the locals `hour`, `min` and `sec`. -/
def make_ts_fields (b : rtas) : Option (Nat × Nat × Nat) :=
  match rets_read b 4, rets_read b 5, rets_read b 6 with
  | some r4, some r5, some r6 => some (bswap32 r4, bswap32 r5, bswap32 r6)
  | _, _, _ => none

/-- Packing step of `make_ts`: `hour`, `min` and `sec` are `uint32_t`, so the two shifts
are taken modulo `2 ^ 32` before they are widened into the `uint64_t` `ts`. -/
def make_ts_pack (hour min sec : Nat) : Nat :=
  let ts := (hour <<< 12) % U32
  let ts := ts ||| (min <<< 6) % U32
  let ts := ts ||| sec
  ts

/-- Everything `make_ts` does after `rtas_call()`. -/
def make_ts_decode (b : rtas) : Option Nat :=
  (make_ts_fields b).map fun f => make_ts_pack f.1 f.2.1 f.2.2

/-- Request half of `make_ts`: the three stores before `rtas_call()`. -/
def make_ts_request (s : State) : State :=
  { s with rtas_argbuf :=
      { s.rtas_argbuf with
        token := bswap32 RTAS_GET_TIME_OF_DAY
        nargs := 0
        nret := bswap32 8 } }

/-- Function `make_ts()`: returns the timestamp and the state after the call. -/
def make_ts (w : World) (s : State) : Outcome (Nat × State) :=
  (rtas_call w (make_ts_request s)).bind fun s1 =>
    match make_ts_decode s1.rtas_argbuf with
    | some ts => .ret (ts, s1)
    | none => .fault

/-- Function `regs_init()`: its loop, with `n` the number of ids still to visit. -/
def regs_init_loop (s : State) : Nat → Nat → State
  | 0, _ => s
  | n + 1, i =>
    let r : one_spr := { name := (s.default_sprs i).name, dval := (s.saved_sprs i).dval }
    regs_init_loop { s with saved_sprs := Function.update s.saved_sprs i r } n (i + 1)

/-- Function `regs_init()`. -/
def regs_init (s : State) : State := regs_init_loop s 1023 0

/-! ## Elapsed-time guard -/

/-- Conversion of an `int` to `uint64_t`. -/
def u64_of_int (z : Int) : Nat := (z % (U64 : Int)).toNat

/-- Conversion of a `uint64_t` to `int`: the low 32 bits, read as two's complement. -/
def int_of_u64 (x : Nat) : Int :=
  if x % U32 < 2 ^ 31 then ((x % U32 : Nat) : Int) else ((x % U32 : Nat) : Int) - (U32 : Int)

/-- Subtraction of `uint64_t` values. -/
def sub64 (x y : Nat) : Nat := (x % U64 + (U64 - y % U64)) % U64

/-- The spin `while (mfspr(TBL) - tb0 < count || mfspr(VTB) - vtb0 < count);` of `sleep`.
`a` and `b` are the numbers of reads of each counter made so far; `||` reads the second
counter only when the first test is false.  The result lists the iterations made, each
with the value read from `TBL` and the value read from `VTB`, if it was read;
`none` when the fuel is used up before the loop is left. -/
def spin (tbl vtb : Nat → Nat) (tb0 vtb0 count : Nat) :
    Nat → Nat → Nat → Option (List (Nat × Option Nat))
  | 0, _, _ => none
  | fuel + 1, a, b =>
    let t := tbl a % U64
    if sub64 t tb0 < count then
      (spin tbl vtb tb0 vtb0 count fuel (a + 1) b).map fun tr => (t, none) :: tr
    else
      let v := vtb b % U64
      if sub64 v vtb0 < count then
        (spin tbl vtb tb0 vtb0 count fuel (a + 1) (b + 1)).map fun tr => (t, some v) :: tr
      else
        some [(t, some v)]

/-- Number of `VTB` reads in a list of spin iterations. -/
def vtb_reads (tr : List (Nat × Option Nat)) : Nat :=
  (tr.filter fun r => r.2.isSome).length

/-- Function `sleep(seconds)`; `fuel` bounds the iterations of the spin. -/
def sleep (w : World) (fuel : Nat) (seconds : Int) (s : State) : Outcome State :=
  let count := (s.tb_freq * u64_of_int seconds) % U64
  (make_ts w s).bind fun (ts0, s) =>
    let tb0 := w.mfspr_TBL s.n_tbl % U64
    let s := { s with n_tbl := s.n_tbl + 1 }
    let vtb0 := w.mfspr_VTB s.n_vtb % U64
    let s := { s with n_vtb := s.n_vtb + 1 }
    match spin w.mfspr_TBL w.mfspr_VTB tb0 vtb0 count fuel s.n_tbl s.n_vtb with
    | none => .timeout
    | some tr =>
      let s := { s with n_tbl := s.n_tbl + tr.length, n_vtb := s.n_vtb + vtb_reads tr }
      (make_ts w s).bind fun (ts1, s) =>
        (assert w (decide (ts1 > ts0)) s).bind fun s =>
          assert w (decide ((sub64 ts1 ts0 &&& 0x3f) ≥ u64_of_int seconds)) s

/-! ## Validation driver -/

/-- Function `print_test_number(i)` of `print.h`. -/
def print_test_number (i : Nat) : List Out :=
  [Out.puts "Test ", Out.putchar (48 + i / 10), Out.putchar (48 + i % 10), Out.puts ":\n"]

/-- The body of the `do` loop of `main`: print, `init_sprs(default_sprs)`,
`sleep(delay)`, `save_sprs(saved_sprs)`. -/
def main_pass (w : World) (fuel : Nat) (s : State) : Outcome State :=
  let s := { s with out := s.out ++ [Out.puts "Dirtying SPRs (migrate now)\n"] }
  let s := { s with default_sprs := w.init_sprs s.n_init s.default_sprs,
                    n_init := s.n_init + 1 }
  (sleep w fuel (int_of_u64 s.delay) s).bind fun s =>
    .ret { s with saved_sprs := w.save_sprs s.n_save s.saved_sprs, n_save := s.n_save + 1 }

/-- The loop `do { ... } while (cmp_regs() == 0 && --iter);` of `main`.  `passes` bounds
the number of passes the model follows, `fuel` each spin.  Returns the state and `iter`
when the loop is left. -/
def main_loop (w : World) (fuel : Nat) : Nat → Nat → State → Outcome (State × Nat)
  | 0, _, _ => .timeout
  | passes + 1, iter, s =>
    (main_pass w fuel s).bind fun s =>
      let r := cmp_regs s
      if r.1 = 0 then
        let iter := (iter + (U64 - 1)) % U64
        if iter ≠ 0 then main_loop w fuel passes iter r.2
        else .ret (r.2, iter)
      else .ret (r.2, iter)

/-- Function `main()` up to its loop: `console_init()` only sets up the output device. -/
def main_prologue (s : State) : State :=
  let s := tb_init s
  let s := rtas_init s
  let s := regs_init s
  let s := { s with out := s.out ++ print_test_number 1 }
  { s with delay := 2 }

/-- Function `main()` after its loop:
`if (iter) rtas_load_retval("FAIL"); else rtas_load_retval("PASS");`. -/
def main_status (w : World) (iter : Nat) (s : State) : State :=
  if iter ≠ 0 then rtas_load_retval w.str_FAIL s
  else rtas_load_retval w.str_PASS s

/-- Function `main()`: returns its return value and the final state. -/
def main (w : World) (passes fuel : Nat) (s : State) : Outcome (Nat × State) :=
  let iter := 100
  (main_loop w fuel passes iter (main_prologue s)).bind fun r =>
    .ret (0, main_status w r.2 r.1)

/-- The globals as the loader leaves them: zero everywhere except `default_sprs`. -/
def State.boot : State where
  tb_freq := 0
  delay := 0
  saved_sprs := fun _ => { name := none, dval := 0 }
  default_sprs := default_sprs_init
  rtas_argbuf := { token := 0, nargs := 0, nret := 0, args := fun _ => 0, rets := RetPtr.null }
  out := []
  calls := []
  n_tbl := 0
  n_vtb := 0
  n_init := 0
  n_save := 0

/-- One pass of the driver: the body of the loop of `main`, then `cmp_regs()`.  Returns
the verdict and the state. -/
def one_pass (w : World) (fuel : Nat) (s : State) : Outcome (Nat × State) :=
  (main_pass w fuel s).bind fun s1 => .ret (cmp_regs s1)

/-- Relation `EqualPasses w fuel k s s1`: starting in `s`, `k` passes in a row come
back from the guard and compare equal, and leave the state `s1`. -/
inductive EqualPasses (w : World) (fuel : Nat) : Nat → State → State → Prop where
  | zero (s : State) : EqualPasses w fuel 0 s s
  | succ {k : Nat} {s s1 s2 : State} :
      one_pass w fuel s = .ret (0, s1) → EqualPasses w fuel k s1 s2 →
      EqualPasses w fuel (k + 1) s s2

/-- The value an outcome returns, if it returns. -/
def Outcome.val? {α : Type} (x : Outcome α) : Option α :=
  match x with
  | .ret a => some a
  | _ => none

/-- Relation `same_regs s s1`: the step from `s` to `s1` changed nothing but the call
buffer, the log of platform calls and the counts of counter reads. -/
def same_regs (s s1 : State) : Prop :=
  s1.tb_freq = s.tb_freq ∧ s1.delay = s.delay ∧ s1.saved_sprs = s.saved_sprs ∧
  s1.default_sprs = s.default_sprs ∧ s1.out = s.out ∧ s1.n_init = s.n_init ∧
  s1.n_save = s.n_save

/-- First assertion of `sleep`: the condition `ts1 > ts0`. -/
def sleep_later (ts0 ts1 : Nat) : Bool := decide (ts1 > ts0)

/-- Second assertion of `sleep`: the condition `((ts1 - ts0) & 0x3f) >= seconds`, the
subtraction in `uint64_t` and `seconds` converted to `uint64_t`. -/
def sleep_floor (seconds : Int) (ts0 ts1 : Nat) : Bool :=
  decide ((sub64 ts1 ts0 &&& 0x3f) ≥ u64_of_int seconds)

/-- Seconds since midnight of a time of day. -/
def day_seconds (h m sec : Nat) : Nat := h * 3600 + m * 60 + sec

/-- No terminate call so far: no buffer in the log of platform calls has the token of
`RTAS_OS_TERM`. -/
def no_term_call (s : State) : Prop :=
  ∀ b ∈ s.calls, b.token ≠ bswap32 RTAS_OS_TERM

/-- A platform on which the terminate call does not come back. -/
def term_halts (w : World) : Prop :=
  ∀ k b, b.token = bswap32 RTAS_OS_TERM → w.rtas_call k b = none

/-- The state in which the body of the loop of `main` calls `sleep(delay)`: after the
print and `init_sprs(default_sprs)`. -/
def before_sleep (w : World) (s : State) : State :=
  { s with out := s.out ++ [Out.puts "Dirtying SPRs (migrate now)\n"],
           default_sprs := w.init_sprs s.n_init s.default_sprs,
           n_init := s.n_init + 1 }

/-- What the loop of `main` keeps true on the platforms `world_of 0 capture`, when `j`
passes have been made: the clock settings of `main`, the return pointer set by
`rtas_init`, two platform calls and two reads of each counter per pass, and
`default_sprs` as initialised. -/
def pass_inv (j : Nat) (s : State) : Prop :=
  s.tb_freq = 512000000 ∧ s.delay = 2 ∧ s.rtas_argbuf.rets = RetPtr.args ∧
  s.calls.length = 2 * j ∧ s.n_tbl = 2 * j ∧ s.n_vtb = 2 * j ∧
  s.default_sprs = default_sprs_init

/-! ## Concrete inputs used in examples -/

/-- A table given by the list of its non-empty entries. -/
def table_of (l : List (Nat × one_spr)) : Nat → one_spr := fun i =>
  (l.lookup i).getD { name := none, dval := 0 }

/-- The state once `main` has set the clock and the wait, with the given `default_sprs`
and `saved_sprs`. -/
def state_of (E O : Nat → one_spr) : State :=
  { State.boot with tb_freq := 512000000, delay := 2, default_sprs := E, saved_sprs := O }

/-- Both tables hold one named register, id 5, with the same value. -/
def ex_equal : State :=
  state_of (table_of [(5, { name := some "r5", dval := 0xdeadbeef })])
    (table_of [(5, { name := some "r5", dval := 0xdeadbeef })])

/-- The program's `default_sprs` against a decrementer read one tick inside the
tolerance. -/
def ex_decr_inside : State :=
  state_of default_sprs_init
    (table_of [(0x16, { name := some "DECR", dval := 0x007afafadeadbeef - 1107886079 })])

/-- The program's `default_sprs` against a decrementer read more than the tolerance
away, with other entries of `saved_sprs` filled as well. -/
def ex_decr_outside : State :=
  state_of default_sprs_init
    (table_of [(0x16, { name := some "DECR", dval := 0x007afafadeadbeef + 1107886081 }),
      (7, { name := none, dval := 99 })])

/-- Ids 3 and 9 compare equal, ids 12 and 40 do not; id 8 has no name. -/
def ex_mismatch : State :=
  state_of
    (table_of [(3, { name := some "a", dval := 1 }), (8, { name := none, dval := 5 }),
      (9, { name := some "b", dval := 2 }), (12, { name := some "c", dval := 3 }),
      (40, { name := some "d", dval := 4 })])
    (table_of [(3, { name := some "a", dval := 1 }), (8, { name := none, dval := 6 }),
      (9, { name := some "b", dval := 2 }), (12, { name := some "c", dval := 7 }),
      (40, { name := some "d", dval := 8 })])

/-- As `ex_mismatch`, with other values at the ids that have no name. -/
def ex_mismatch_other : State :=
  state_of
    (table_of [(3, { name := some "a", dval := 1 }), (8, { name := none, dval := 50 }),
      (9, { name := some "b", dval := 2 }), (12, { name := some "c", dval := 3 }),
      (40, { name := some "d", dval := 4 }), (100, { name := none, dval := 77 })])
    (table_of [(3, { name := some "a", dval := 1 }), (8, { name := none, dval := 60 }),
      (9, { name := some "b", dval := 2 }), (12, { name := some "c", dval := 7 }),
      (40, { name := some "d", dval := 8 }), (200, { name := none, dval := 78 })])

/-- The only named register is the last slot, id 1023, and its two values differ. -/
def ex_last_slot : State :=
  state_of (table_of [(1023, { name := some "top", dval := 1 })])
    (table_of [(1023, { name := some "top", dval := 2 })])

/-- Counters for the spin: the time base advances 2^29 ticks from one read to the next,
the virtual time base 2^30 ticks. -/
def ex_tbl : Nat → Nat := fun k => k * 2 ^ 29

/-- See `ex_tbl`. -/
def ex_vtb : Nat → Nat := fun k => k * 2 ^ 30

/-- Answer of the platform to a time-of-day call made `t` seconds after midnight: the
hour, minute and second in return words 4, 5 and 6, each in big-endian byte order,
zero elsewhere. -/
def tod_reply (t : Nat) (b : rtas) : rtas :=
  { b with args := fun j =>
      if j.val = 4 then bswap32 (t / 3600 % 24)
      else if j.val = 5 then bswap32 (t / 60 % 60)
      else if j.val = 6 then bswap32 (t % 60)
      else 0 }

/-- A platform and machine for the driver: the call number `k` is answered as a
time-of-day call made at second `t0 + 3 * k`, unless it is the terminate call, which does
not come back; each counter advances 2^31 ticks from one read to the next; `init_sprs`
leaves `default_sprs` alone and the `k`-th `save_sprs` stores the table `capture k`. -/
def world_of (t0 : Nat) (capture : Nat → Nat → one_spr) : World where
  rtas_call := fun k b =>
    if b.token = bswap32 RTAS_OS_TERM then none else some (tod_reply (t0 + 3 * k) b)
  mfspr_TBL := fun k => k * 2 ^ 31
  mfspr_VTB := fun k => k * 2 ^ 31 + 5
  init_sprs := fun _ t => t
  save_sprs := fun k _ => capture k
  str_FAIL := 0x2000
  str_PASS := 0x2008

/-- The state after `rtas_init`, at the start of the first platform call. -/
def ex_ready : State := rtas_init State.boot

/-- A platform whose time-of-day answer has the hour word `0x00100000` in big-endian
byte order and zero minutes and seconds. -/
def ex_world_hour : World where
  rtas_call := fun _ b => some { b with args := fun j => if j.val = 4 then bswap32 0x100000 else 0 }
  mfspr_TBL := fun k => k
  mfspr_VTB := fun k => k
  init_sprs := fun _ t => t
  save_sprs := fun _ t => t
  str_FAIL := 0x2000
  str_PASS := 0x2008

/-- A platform whose first call is answered with the time of day 09:42:23. -/
def ex_world_tod : World := world_of 34943 fun _ => default_sprs_init

/-- A capture in which the decrementer reads 0, far from its expected value. -/
def ex_capture_bad : Nat → one_spr := table_of [(0x16, { name := some "DECR", dval := 0 })]

/-- A platform on which every capture mismatches. -/
def ex_world_bad : World := world_of 0 fun _ => ex_capture_bad

/-- A platform whose first capture is identical to `default_sprs` and whose later
captures mismatch. -/
def ex_world_then_bad : World :=
  world_of 0 fun k => if k = 0 then default_sprs_init else ex_capture_bad

/-- A platform on which every capture is identical to `default_sprs`. -/
def ex_world_good : World := world_of 0 fun _ => default_sprs_init

/-- The last slot, id 1023, is the only named entry of `default_sprs`; `saved_sprs` is
as the loader leaves it. -/
def ex_top_named : State :=
  state_of (table_of [(1023, { name := some "top", dval := 1 })])
    State.boot.saved_sprs

/-- No entry has a name; the values of the last slot differ. -/
def ex_last_slot_unnamed : State :=
  state_of (table_of [(1023, { name := none, dval := 1 })])
    (table_of [(1023, { name := none, dval := 2 })])

/-! ## Lemmas on the comparator loop -/

theorem tracked_iff (s : State) (i : Nat) :
    tracked s i = true ↔ (s.default_sprs i).name ≠ none := by
  unfold tracked
  cases (s.default_sprs i).name <;> simp

theorem eq_entries_nil (s : State) : eq_entries s [] = [] := rfl

theorem eq_entries_cons (s : State) (j : Nat) (l : List Nat) :
    eq_entries s (j :: l) = Out.puts "." :: print_spr_eq s j ++ eq_entries s l := by
  simp [eq_entries, List.flatMap_cons]

/-- A stretch of the scan without a mismatch runs to its end with `fail = 0`, having
logged every tracked id of the stretch as equal. -/
theorem cmp_regs_loop_all_equal (s : State) :
    ∀ (n i : Nat) (out : List Out),
      (∀ j, i ≤ j → j < i + n → tracked s j = true → spr_equal s j = true) →
      cmp_regs_loop s n i out
        = (0, out ++ eq_entries s ((List.range' i n).filter (tracked s))) := by
  intro n
  induction n with
  | zero => intro i out _; simp [cmp_regs_loop, eq_entries_nil]
  | succ n ih =>
    intro i out h
    have hrest : ∀ j, i + 1 ≤ j → j < i + 1 + n → tracked s j = true → spr_equal s j = true :=
      fun j h1 h2 h3 => h j (by omega) (by omega) h3
    rw [List.range'_succ]
    cases hn : (s.default_sprs i).name with
    | none =>
      have ht : tracked s i = false := by simp [tracked, hn]
      rw [cmp_regs_loop, hn]
      simp only [List.filter_cons, ht]
      simpa using ih (i + 1) out hrest
    | some nm =>
      have ht : tracked s i = true := by simp [tracked, hn]
      have he : spr_equal s i = true := h i (Nat.le_refl _) (by omega) ht
      rw [cmp_regs_loop, hn]
      simp only [List.filter_cons, ht, he, eq_entries_cons]
      rw [ih (i + 1) _ hrest]
      simp [List.append_assoc, eq_entries_cons]

/-- A stretch of the scan whose first mismatching tracked id is `m` stops there with
`fail = 1`, having logged the tracked ids before `m` as equal and `m` as unequal. -/
theorem cmp_regs_loop_first_mismatch (s : State) :
    ∀ (n i : Nat) (out : List Out) (m : Nat),
      i ≤ m → m < i + n → tracked s m = true → spr_equal s m = false →
      (∀ j, i ≤ j → j < m → tracked s j = true → spr_equal s j = true) →
      cmp_regs_loop s n i out
        = (1, out ++ eq_entries s ((List.range' i (m - i)).filter (tracked s))
                ++ [Out.puts "."] ++ print_spr_neq s m) := by
  intro n
  induction n with
  | zero => intro i out m h1 h2; omega
  | succ n ih =>
    intro i out m h1 h2 htm hem hbelow
    rcases Nat.eq_or_lt_of_le h1 with heq | hlt
    · subst heq
      have hn : ∃ nm, (s.default_sprs i).name = some nm := by
        have := (tracked_iff s i).1 htm
        exact Option.ne_none_iff_exists'.1 this
      obtain ⟨nm, hn⟩ := hn
      rw [cmp_regs_loop, hn]
      simp [hem, eq_entries_nil]
    · have hrest : ∀ j, i + 1 ≤ j → j < m → tracked s j = true → spr_equal s j = true :=
        fun j h3 h4 h5 => hbelow j (by omega) h4 h5
      have hsplit : m - i = (m - (i + 1)) + 1 := by omega
      rw [hsplit, List.range'_succ]
      cases hn : (s.default_sprs i).name with
      | none =>
        have ht : tracked s i = false := by simp [tracked, hn]
        rw [cmp_regs_loop, hn]
        simp only [List.filter_cons, ht]
        simpa using ih (i + 1) out m (by omega) (by omega) htm hem hrest
      | some nm =>
        have ht : tracked s i = true := by simp [tracked, hn]
        have he : spr_equal s i = true := hbelow i (Nat.le_refl _) hlt ht
        rw [cmp_regs_loop, hn]
        simp only [List.filter_cons, ht, he, eq_entries_cons]
        rw [ih (i + 1) _ m (by omega) (by omega) htm hem hrest]
        simp [List.append_assoc, eq_entries_cons]

/-- Among the ids below a bound, a mismatching tracked id implies a smallest one. -/
theorem exists_first_mismatch (s : State) (b : Nat)
    (h : ∃ i, i < b ∧ tracked s i = true ∧ spr_equal s i = false) :
    ∃ m, m < b ∧ tracked s m = true ∧ spr_equal s m = false ∧
      ∀ j, j < m → tracked s j = true → spr_equal s j = true := by
  classical
  let P : Nat → Prop := fun i => i < b ∧ tracked s i = true ∧ spr_equal s i = false
  have hP : ∃ i, P i := h
  refine ⟨Nat.find hP, (Nat.find_spec hP).1, (Nat.find_spec hP).2.1, (Nat.find_spec hP).2.2, ?_⟩
  intro j hj ht
  by_contra hne
  have hlt : j < b := Nat.lt_trans hj (Nat.find_spec hP).1
  exact Nat.find_min hP hj ⟨hlt, ht, by simpa using hne⟩

/-- The two ways `cmp_regs` ends, in terms of the scanned range. -/
theorem cmp_regs_cases (s : State) :
    ((∀ j, j < 1023 → tracked s j = true → spr_equal s j = true) ∧
      (cmp_regs s).1 = 0 ∧
      (cmp_regs s).2.out = s.out ++ [Out.puts "Checking SPRs"]
        ++ eq_entries s (tracked_below s 1023) ++ [Out.puts "OK\n"]) ∨
    (∃ m, m < 1023 ∧ tracked s m = true ∧ spr_equal s m = false ∧
      (∀ j, j < m → tracked s j = true → spr_equal s j = true) ∧
      (cmp_regs s).1 = 1 ∧
      (cmp_regs s).2.out = s.out ++ [Out.puts "Checking SPRs"]
        ++ eq_entries s (tracked_below s m) ++ [Out.puts "."] ++ print_spr_neq s m) := by
  by_cases h : ∃ i, i < 1023 ∧ tracked s i = true ∧ spr_equal s i = false
  · right
    obtain ⟨m, hm, htm, hem, hbelow⟩ := exists_first_mismatch s 1023 h
    refine ⟨m, hm, htm, hem, hbelow, ?_⟩
    have hl := cmp_regs_loop_first_mismatch s 1023 0 (s.out ++ [Out.puts "Checking SPRs"]) m
      (Nat.zero_le _) (by omega) htm hem (fun j _ hj ht => hbelow j hj ht)
    simp only [cmp_regs, hl, tracked_below, List.range_eq_range', Nat.sub_zero]
    simp
  · left
    have hall : ∀ j, j < 1023 → tracked s j = true → spr_equal s j = true := by
      intro j hj ht
      by_contra hne
      exact h ⟨j, hj, ht, by simpa using hne⟩
    refine ⟨hall, ?_⟩
    have hl := cmp_regs_loop_all_equal s 1023 0 (s.out ++ [Out.puts "Checking SPRs"])
      (fun j _ hj ht => hall j (by omega) ht)
    simp only [cmp_regs, hl, tracked_below, List.range_eq_range']
    simp

/-- The loop of `cmp_regs` only appends to the stream it is given. -/
theorem cmp_regs_loop_acc (s : State) :
    ∀ (n i : Nat) (out : List Out),
      cmp_regs_loop s n i out
        = ((cmp_regs_loop s n i []).1, out ++ (cmp_regs_loop s n i []).2) := by
  intro n
  induction n with
  | zero => intro i out; simp [cmp_regs_loop]
  | succ n ih =>
    intro i out
    cases hn : (s.default_sprs i).name with
    | none => simp only [cmp_regs_loop, hn]; exact ih (i + 1) out
    | some nm =>
      cases he : spr_equal s i with
      | false => simp [cmp_regs_loop, hn, he]
      | true =>
        simp only [cmp_regs_loop, hn, he]
        rw [ih (i + 1) (out ++ [Out.puts "."] ++ print_spr_eq s i),
          ih (i + 1) ([] ++ [Out.puts "."] ++ print_spr_eq s i)]
        simp [List.append_assoc]

/-- The loop of `cmp_regs` reads only the names of `default_sprs`, and the values and the
threshold at ids that have a name. -/
theorem cmp_regs_loop_congr (s1 s2 : State)
    (hf : s1.tb_freq = s2.tb_freq) (hd : s1.delay = s2.delay) :
    ∀ (n i : Nat) (out : List Out),
      (∀ j, i ≤ j → j < i + n → (s1.default_sprs j).name = (s2.default_sprs j).name) →
      (∀ j, i ≤ j → j < i + n → (s1.default_sprs j).name ≠ none →
        (s1.default_sprs j).dval = (s2.default_sprs j).dval ∧
        (s1.saved_sprs j).dval = (s2.saved_sprs j).dval) →
      cmp_regs_loop s1 n i out = cmp_regs_loop s2 n i out := by
  intro n
  induction n with
  | zero => intro i out _ _; simp [cmp_regs_loop]
  | succ n ih =>
    intro i out hname hval
    have hname1 : ∀ j, i + 1 ≤ j → j < i + 1 + n →
        (s1.default_sprs j).name = (s2.default_sprs j).name :=
      fun j h1 h2 => hname j (by omega) (by omega)
    have hval1 : ∀ j, i + 1 ≤ j → j < i + 1 + n → (s1.default_sprs j).name ≠ none →
        (s1.default_sprs j).dval = (s2.default_sprs j).dval ∧
        (s1.saved_sprs j).dval = (s2.saved_sprs j).dval :=
      fun j h1 h2 h3 => hval j (by omega) (by omega) h3
    have hni := hname i (Nat.le_refl _) (by omega)
    cases hn : (s1.default_sprs i).name with
    | none =>
      have hn2 : (s2.default_sprs i).name = none := by rw [← hni, hn]
      simp only [cmp_regs_loop, hn, hn2]
      exact ih (i + 1) out hname1 hval1
    | some nm =>
      have hn2 : (s2.default_sprs i).name = some nm := by rw [← hni, hn]
      obtain ⟨hv1, hv2⟩ := hval i (Nat.le_refl _) (by omega) (by simp [hn])
      have he : spr_equal s1 i = spr_equal s2 i := by
        simp only [spr_equal, hf, hd, hv1, hv2]
      have hpe : print_spr_eq s1 i = print_spr_eq s2 i := by
        simp only [print_spr_eq, hn, hn2, hv1, hv2]
      have hpn : print_spr_neq s1 i = print_spr_neq s2 i := by
        simp only [print_spr_neq, hn, hn2, hv1, hv2]
      simp only [cmp_regs_loop, hn, hn2, he, hpe, hpn]
      split
      · rfl
      · exact ih (i + 1) _ hname1 hval1

/-- Flipping a bit changes a number. -/
theorem xor_pow_ne (x k : Nat) : x ^^^ 2 ^ k ≠ x := by
  intro h
  have h2 : x ^^^ (x ^^^ 2 ^ k) = 2 ^ k := Nat.xor_cancel_left x (2 ^ k)
  rw [h, Nat.xor_self] at h2
  exact (Nat.pos_pow_of_pos k (by decide)).ne h2

/-- Policy of the decrementer, when nothing wraps. -/
theorem spr_equal_DECR_iff (s : State)
    (hx : (s.default_sprs DECR).dval < U64) (hy : (s.saved_sprs DECR).dval < U64)
    (ht : threshold s < U64) :
    spr_equal s DECR = true ↔
      |((s.default_sprs DECR).dval : Int) - ((s.saved_sprs DECR).dval : Int)|
        < (threshold s : Int) := by
  unfold threshold at *
  unfold spr_equal
  generalize s.tb_freq * s.delay = p at *
  generalize (s.default_sprs DECR).dval = x at *
  generalize (s.saved_sprs DECR).dval = y at *
  unfold U64 MIGRATION_DELAY at *
  norm_num at hx hy ht
  simp only [if_true, decide_eq_true_eq, abs_lt]
  norm_num
  split <;> omega

/-! ## Comparator: claims -/

/-- C1: for every register id other than the decrementer, `spr_equal` returns true
exactly when the expected and the observed value are the same number; in particular
an observed value that differs from the expected one in a single bit compares
unequal. -/
theorem spr_equal_exact (s : State) (i : Nat) (hi : i ≠ DECR) :
    (spr_equal s i = true ↔ (s.default_sprs i).dval = (s.saved_sprs i).dval) ∧
    (∀ k, (s.saved_sprs i).dval = (s.default_sprs i).dval ^^^ 2 ^ k →
      spr_equal s i = false) := by
  have h : spr_equal s i = decide ((s.default_sprs i).dval = (s.saved_sprs i).dval) := by
    simp [spr_equal, hi]
  refine ⟨by simp [h], ?_⟩
  intro k hk
  rw [h, hk]
  simpa using (xor_pow_ne (s.default_sprs i).dval k).symm

/-- Witness of C1: id 5 with equal values compares equal. -/
theorem spr_equal_exact_witness :
    (5 : Nat) ≠ DECR ∧
    ((spr_equal ex_equal 5 = true ↔
        (ex_equal.default_sprs 5).dval = (ex_equal.saved_sprs 5).dval) ∧
      (∀ k, (ex_equal.saved_sprs 5).dval = (ex_equal.default_sprs 5).dval ^^^ 2 ^ k →
        spr_equal ex_equal 5 = false)) :=
  ⟨by decide, spr_equal_exact ex_equal 5 (by decide)⟩

/-- C2: for the decrementer, with 64-bit values and a threshold
`tb_freq * delay + MIGRATION_DELAY` that fits in 64 bits, `spr_equal` returns true
exactly when the absolute difference of the two values, taken in the integers, is
strictly below the threshold: a difference equal to the threshold is unequal, one tick
less is equal; with `tb_freq = 512000000` and `delay = 2` the threshold is
1107886080. -/
theorem spr_equal_decrementer (s : State)
    (hx : (s.default_sprs DECR).dval < 2 ^ 64) (hy : (s.saved_sprs DECR).dval < 2 ^ 64)
    (ht : s.tb_freq * s.delay + MIGRATION_DELAY < 2 ^ 64) :
    (spr_equal s DECR = true ↔
      |((s.default_sprs DECR).dval : Int) - ((s.saved_sprs DECR).dval : Int)|
        < ((s.tb_freq * s.delay + MIGRATION_DELAY : Nat) : Int)) ∧
    (|((s.default_sprs DECR).dval : Int) - ((s.saved_sprs DECR).dval : Int)|
        = ((s.tb_freq * s.delay + MIGRATION_DELAY : Nat) : Int) →
      spr_equal s DECR = false) ∧
    (|((s.default_sprs DECR).dval : Int) - ((s.saved_sprs DECR).dval : Int)| + 1
        = ((s.tb_freq * s.delay + MIGRATION_DELAY : Nat) : Int) →
      spr_equal s DECR = true) ∧
    (s.tb_freq = 512000000 → s.delay = 2 →
      s.tb_freq * s.delay + MIGRATION_DELAY = 1107886080) := by
  have hiff := spr_equal_DECR_iff s hx hy ht
  refine ⟨hiff, ?_, ?_, ?_⟩
  · intro he
    cases h : spr_equal s DECR with
    | false => rfl
    | true =>
      have := hiff.1 h
      unfold threshold at this
      omega
  · intro he
    apply hiff.2
    unfold threshold
    omega
  · intro hf hd
    rw [hf, hd]
    rfl

/-- Witness of C2: the configured clock, the observed value one tick inside the
tolerance. -/
theorem spr_equal_decrementer_witness :
    (ex_decr_inside.default_sprs DECR).dval < 2 ^ 64 ∧
    (ex_decr_inside.saved_sprs DECR).dval < 2 ^ 64 ∧
    ex_decr_inside.tb_freq * ex_decr_inside.delay + MIGRATION_DELAY < 2 ^ 64 ∧
    |((ex_decr_inside.default_sprs DECR).dval : Int)
        - ((ex_decr_inside.saved_sprs DECR).dval : Int)| + 1
      = ((ex_decr_inside.tb_freq * ex_decr_inside.delay + MIGRATION_DELAY : Nat) : Int) ∧
    spr_equal ex_decr_inside DECR = true :=
  have h1 : |((ex_decr_inside.default_sprs DECR).dval : Int)
        - ((ex_decr_inside.saved_sprs DECR).dval : Int)| + 1
      = ((ex_decr_inside.tb_freq * ex_decr_inside.delay + MIGRATION_DELAY : Nat) : Int) := by
    decide
  ⟨by decide, by decide, by decide, h1,
    (spr_equal_decrementer ex_decr_inside (by decide) (by decide) (by decide)).2.2.1 h1⟩

/-- C3: `cmp_regs` returns 1 exactly when some id of the scanned range 0..1022 has a
name in `default_sprs` and `spr_equal` false, and returns 0 exactly when there is no
such id. -/
theorem cmp_regs_verdict (s : State) :
    ((cmp_regs s).1 = 1 ↔
      ∃ i, i < 1023 ∧ (s.default_sprs i).name ≠ none ∧ spr_equal s i = false) ∧
    ((cmp_regs s).1 = 0 ↔
      ¬ ∃ i, i < 1023 ∧ (s.default_sprs i).name ≠ none ∧ spr_equal s i = false) := by
  have hex : (∃ i, i < 1023 ∧ (s.default_sprs i).name ≠ none ∧ spr_equal s i = false) ↔
      ∃ i, i < 1023 ∧ tracked s i = true ∧ spr_equal s i = false := by
    constructor <;> rintro ⟨i, h1, h2, h3⟩
    · exact ⟨i, h1, (tracked_iff s i).2 h2, h3⟩
    · exact ⟨i, h1, (tracked_iff s i).1 h2, h3⟩
  rw [hex]
  rcases cmp_regs_cases s with ⟨hall, h0, _⟩ | ⟨m, hm, htm, hem, _, h1, _⟩
  · have hno : ¬ ∃ i, i < 1023 ∧ tracked s i = true ∧ spr_equal s i = false := by
      rintro ⟨i, h1, h2, h3⟩
      rw [hall i h1 h2] at h3
      exact Bool.noConfusion h3
    exact ⟨⟨fun h => by omega, fun h => absurd h hno⟩, ⟨fun _ => hno, fun _ => h0⟩⟩
  · have hyes : ∃ i, i < 1023 ∧ tracked s i = true ∧ spr_equal s i = false :=
      ⟨m, hm, htm, hem⟩
    exact ⟨⟨fun _ => hyes, fun _ => h1⟩, ⟨fun h => by omega, fun h => absurd hyes h⟩⟩

set_option maxRecDepth 100000 in
/-- C4, as stated, fails: with the last slot (id 1023) the only named register and its
values different, a tracked id mismatches, yet `cmp_regs` returns 0 and reports no
unequal entry. -/
theorem cmp_regs_first_mismatch_counterexample :
    (∃ i, i < 1024 ∧ (ex_last_slot.default_sprs i).name ≠ none ∧
      spr_equal ex_last_slot i = false) ∧
    (cmp_regs ex_last_slot).1 = 0 ∧
    (cmp_regs ex_last_slot).2.out = [Out.puts "Checking SPRs", Out.puts "OK\n"] :=
  ⟨⟨1023, by decide, by decide, by decide⟩, by decide, by decide⟩

/-- The entries logged for a run of ids that compare equal, written out call by call:
ids without a name contribute nothing. -/
theorem eq_entries_tracked_below (s : State) (m : Nat) :
    eq_entries s (tracked_below s m)
      = (List.range m).flatMap (fun j =>
          match (s.default_sprs j).name with
          | none => []
          | some nm => [Out.puts ".", Out.puts "\n", Out.time, Out.puts nm,
              Out.regs (s.default_sprs j).dval (s.saved_sprs j).dval " == "]) := by
  unfold eq_entries tracked_below
  induction m with
  | zero => rfl
  | succ m ih =>
    rw [List.range_succ, List.filter_append, List.flatMap_append, List.flatMap_append, ih]
    congr 1
    cases hn : (s.default_sprs m).name with
    | none => simp [tracked, hn]
    | some nm => simp [tracked, hn, print_spr_eq, name_str]

/-- The unequal entry, written out call by call. -/
theorem print_spr_neq_named (s : State) (m : Nat) (nm : String)
    (h : (s.default_sprs m).name = some nm) :
    print_spr_neq s m = [Out.puts "\n", Out.time, Out.puts nm,
      Out.regs (s.default_sprs m).dval (s.saved_sprs m).dval " != "] := by
  simp [print_spr_neq, name_str, h]

/-- C4, amended: when some tracked id of the scanned range 0..1022 mismatches,
`cmp_regs` writes, after its heading, one equal entry for each tracked id below the
smallest mismatching tracked id `m`, in ascending order, then the unequal entry for
`m`, and nothing more; it returns 1.  An equal entry is the dot, the new line, the time
stamp, the register's name and the two values joined by " == "; the unequal entry is
the same with the name and the two values of `m` joined by " != ". -/
theorem cmp_regs_first_mismatch (s : State)
    (h : ∃ i, i < 1023 ∧ (s.default_sprs i).name ≠ none ∧ spr_equal s i = false) :
    ∃ m nm, m < 1023 ∧ (s.default_sprs m).name = some nm ∧ spr_equal s m = false ∧
      (∀ j, j < m → (s.default_sprs j).name ≠ none → spr_equal s j = true) ∧
      (cmp_regs s).1 = 1 ∧
      (cmp_regs s).2.out = s.out ++ [Out.puts "Checking SPRs"]
        ++ (List.range m).flatMap (fun j =>
            match (s.default_sprs j).name with
            | none => []
            | some nj => [Out.puts ".", Out.puts "\n", Out.time, Out.puts nj,
                Out.regs (s.default_sprs j).dval (s.saved_sprs j).dval " == "])
        ++ [Out.puts ".", Out.puts "\n", Out.time, Out.puts nm,
              Out.regs (s.default_sprs m).dval (s.saved_sprs m).dval " != "] := by
  rcases cmp_regs_cases s with ⟨hall, _, _⟩ | ⟨m, hm, htm, hem, hbelow, h1, hout⟩
  · obtain ⟨i, h1, h2, h3⟩ := h
    rw [hall i h1 ((tracked_iff s i).2 h2)] at h3
    exact Bool.noConfusion h3
  · cases hn : (s.default_sprs m).name with
    | none => exact absurd hn ((tracked_iff s m).1 htm)
    | some nm =>
      refine ⟨m, nm, hm, hn, hem,
        fun j hj hn => hbelow j hj ((tracked_iff s j).2 hn), h1, ?_⟩
      rw [hout, eq_entries_tracked_below, print_spr_neq_named s m nm hn]
      simp [List.append_assoc]

set_option maxRecDepth 100000 in
/-- Witness of C4 (amended): ids 3 and 9 are equal, 12 is the first mismatch, 40 is not
reported: the text is the heading, the equal entries of "a" and "b" and the unequal
entry of "c" with its values 3 and 7. -/
theorem cmp_regs_first_mismatch_witness :
    (∃ i, i < 1023 ∧ (ex_mismatch.default_sprs i).name ≠ none ∧
      spr_equal ex_mismatch i = false) ∧
    (cmp_regs ex_mismatch).1 = 1 ∧
    (cmp_regs ex_mismatch).2.out =
      [Out.puts "Checking SPRs",
        Out.puts ".", Out.puts "\n", Out.time, Out.puts "a", Out.regs 1 1 " == ",
        Out.puts ".", Out.puts "\n", Out.time, Out.puts "b", Out.regs 2 2 " == ",
        Out.puts ".", Out.puts "\n", Out.time, Out.puts "c", Out.regs 3 7 " != "] ∧
    ∃ m nm, m < 1023 ∧ (ex_mismatch.default_sprs m).name = some nm ∧
      spr_equal ex_mismatch m = false ∧
      (∀ j, j < m → (ex_mismatch.default_sprs j).name ≠ none →
        spr_equal ex_mismatch j = true) ∧
      (cmp_regs ex_mismatch).1 = 1 ∧
      (cmp_regs ex_mismatch).2.out = ex_mismatch.out ++ [Out.puts "Checking SPRs"]
        ++ (List.range m).flatMap (fun j =>
            match (ex_mismatch.default_sprs j).name with
            | none => []
            | some nj => [Out.puts ".", Out.puts "\n", Out.time, Out.puts nj,
                Out.regs (ex_mismatch.default_sprs j).dval (ex_mismatch.saved_sprs j).dval
                  " == "])
        ++ [Out.puts ".", Out.puts "\n", Out.time, Out.puts nm,
              Out.regs (ex_mismatch.default_sprs m).dval (ex_mismatch.saved_sprs m).dval
                " != "] :=
  ⟨⟨40, by decide, by decide, by decide⟩, by decide, by decide,
    cmp_regs_first_mismatch ex_mismatch ⟨40, by decide, by decide, by decide⟩⟩

/-- C5: `cmp_regs` does not look at the values stored at ids without a name: two
states with the same clock settings whose `default_sprs` agree on every name, and
whose two tables agree on the values of every named id, get the same verdict and the
same text appended to the diagnostic stream. -/
theorem cmp_regs_ignores_unnamed (s1 s2 : State)
    (hf : s1.tb_freq = s2.tb_freq) (hd : s1.delay = s2.delay)
    (hname : ∀ i, i < 1024 → (s1.default_sprs i).name = (s2.default_sprs i).name)
    (hval : ∀ i, i < 1024 → (s1.default_sprs i).name ≠ none →
      (s1.default_sprs i).dval = (s2.default_sprs i).dval ∧
      (s1.saved_sprs i).dval = (s2.saved_sprs i).dval) :
    (cmp_regs s1).1 = (cmp_regs s2).1 ∧
    ∃ l, (cmp_regs s1).2.out = s1.out ++ l ∧ (cmp_regs s2).2.out = s2.out ++ l := by
  have hl : cmp_regs_loop s1 1023 0 [] = cmp_regs_loop s2 1023 0 [] :=
    cmp_regs_loop_congr s1 s2 hf hd 1023 0 []
      (fun j _ hj => hname j (by omega)) (fun j _ hj hn => hval j (by omega) hn)
  have h1 := cmp_regs_loop_acc s1 1023 0 (s1.out ++ [Out.puts "Checking SPRs"])
  have h2 := cmp_regs_loop_acc s2 1023 0 (s2.out ++ [Out.puts "Checking SPRs"])
  simp only [cmp_regs, h1, h2, hl]
  split
  · exact ⟨rfl, [Out.puts "Checking SPRs"] ++ (cmp_regs_loop s2 1023 0 []).2
      ++ [Out.puts "OK\n"], by simp, by simp⟩
  · exact ⟨rfl, [Out.puts "Checking SPRs"] ++ (cmp_regs_loop s2 1023 0 []).2,
      by simp, by simp⟩

set_option maxRecDepth 100000 in
/-- Witness of C5: two table pairs that differ only at ids 8, 100 and 200, none of
which has a name. -/
theorem cmp_regs_ignores_unnamed_witness :
    (ex_mismatch.default_sprs 8).dval ≠ (ex_mismatch_other.default_sprs 8).dval ∧
    (ex_mismatch.saved_sprs 200).dval ≠ (ex_mismatch_other.saved_sprs 200).dval ∧
    (cmp_regs ex_mismatch).1 = (cmp_regs ex_mismatch_other).1 ∧
    ∃ l, (cmp_regs ex_mismatch).2.out = ex_mismatch.out ++ l ∧
      (cmp_regs ex_mismatch_other).2.out = ex_mismatch_other.out ++ l :=
  ⟨by decide, by decide,
    cmp_regs_ignores_unnamed ex_mismatch ex_mismatch_other rfl rfl
      (fun i hi => by
        have h : ∀ j : Fin 1024, (ex_mismatch.default_sprs j).name
            = (ex_mismatch_other.default_sprs j).name := by decide
        exact h ⟨i, hi⟩)
      (fun i hi => by
        have h : ∀ j : Fin 1024, (ex_mismatch.default_sprs j).name ≠ none →
            (ex_mismatch.default_sprs j).dval = (ex_mismatch_other.default_sprs j).dval ∧
            (ex_mismatch.saved_sprs j).dval = (ex_mismatch_other.saved_sprs j).dval := by
          decide
        exact h ⟨i, hi⟩)⟩

/-- The tracked ids of the program's own `default_sprs`. -/
theorem tracked_default_sprs_init (s : State) (hE : s.default_sprs = default_sprs_init)
    (j : Nat) : tracked s j = true ↔ j = DECR := by
  unfold tracked
  rw [hE]
  unfold default_sprs_init
  by_cases h : j = DECR <;> simp [h]

/-- The scan of the program's own `default_sprs` meets the decrementer only. -/
theorem tracked_below_default_sprs_init (s : State)
    (hE : s.default_sprs = default_sprs_init) (m : Nat) :
    tracked_below s m = if DECR < m then [DECR] else [] := by
  have hfun : tracked s = fun j => decide (j = DECR) := by
    funext j
    have := tracked_default_sprs_init s hE j
    by_cases h : j = DECR
    · rw [this.2 h]; simp [h]
    · have : tracked s j = false := by
        cases ht : tracked s j with
        | false => rfl
        | true => exact absurd (this.1 ht) h
      simp [h, this]
  unfold tracked_below
  rw [hfun]
  induction m with
  | zero => simp [DECR]
  | succ m ih =>
    rw [List.range_succ, List.filter_append, ih]
    by_cases h1 : DECR < m
    · have h2 : m ≠ DECR := by omega
      have h3 : DECR < m + 1 := by omega
      simp [h1, h2, h3]
    · by_cases h2 : m = DECR
      · have h3 : DECR < m + 1 := by omega
        simp [h1, h2, h3]
      · have h3 : ¬ DECR < m + 1 := by omega
        simp [h1, h2, h3]

/-- C8: with the program's own `default_sprs` (the decrementer the only named
register), `tb_freq = 512000000` and `delay = 2`, for every `saved_sprs` with a 64-bit
decrementer value: if that value is within 1107886079 ticks of the expected one,
`cmp_regs` returns 0 and its whole text is the heading, the entry of "DECR" with the
expected value and the value saved at id 0x16 joined by " == ", and "OK"; if it is more
than 1107886080 ticks away, `cmp_regs` returns 1 and its whole text is the heading and
the entry of "DECR" with the same two values joined by " != ".  No other entry of
`saved_sprs` is looked at. -/
theorem cmp_regs_program_table (s : State)
    (hE : s.default_sprs = default_sprs_init)
    (hf : s.tb_freq = 512000000) (hd : s.delay = 2)
    (hy : (s.saved_sprs DECR).dval < 2 ^ 64) :
    (|(0x007afafadeadbeef : Int) - ((s.saved_sprs DECR).dval : Int)| ≤ 1107886079 →
      (cmp_regs s).1 = 0 ∧
      (cmp_regs s).2.out = s.out ++ [Out.puts "Checking SPRs",
        Out.puts ".", Out.puts "\n", Out.time, Out.puts "DECR",
        Out.regs 0x007afafadeadbeef (s.saved_sprs 0x16).dval " == ", Out.puts "OK\n"]) ∧
    (|(0x007afafadeadbeef : Int) - ((s.saved_sprs DECR).dval : Int)| > 1107886080 →
      (cmp_regs s).1 = 1 ∧
      (cmp_regs s).2.out = s.out ++ [Out.puts "Checking SPRs",
        Out.puts ".", Out.puts "\n", Out.time, Out.puts "DECR",
        Out.regs 0x007afafadeadbeef (s.saved_sprs 0x16).dval " != "]) := by
  have hx : (s.default_sprs DECR).dval = 0x007afafadeadbeef := by
    rw [hE]; rfl
  have hnm : (s.default_sprs DECR).name = some "DECR" := by
    rw [hE]; rfl
  have ht : threshold s = 1107886080 := by
    unfold threshold; rw [hf, hd]; rfl
  have hiff := spr_equal_DECR_iff s (by rw [hx]; decide) hy (by rw [ht]; decide)
  rw [hx, ht] at hiff
  have hD : DECR < 1023 := by decide
  have h16 : (0x16 : Nat) = DECR := rfl
  rw [h16]
  constructor
  · intro hle
    have heq : spr_equal s DECR = true := hiff.2 (by push_cast; omega)
    rcases cmp_regs_cases s with ⟨_, h0, hout⟩ | ⟨m, _, htm, hem, _, _, _⟩
    · refine ⟨h0, ?_⟩
      rw [hout, tracked_below_default_sprs_init s hE, if_pos hD]
      simp [eq_entries, print_spr_eq, name_str, hnm, hx]
    · rw [(tracked_default_sprs_init s hE m).1 htm, heq] at hem
      exact Bool.noConfusion hem
  · intro hgt
    have hne : spr_equal s DECR = false := by
      cases h : spr_equal s DECR with
      | false => rfl
      | true =>
        have := hiff.1 h
        push_cast at this
        omega
    rcases cmp_regs_cases s with ⟨hall, _, _⟩ | ⟨m, _, htm, _, _, h1, hout⟩
    · rw [hall DECR hD ((tracked_default_sprs_init s hE DECR).2 rfl)] at hne
      exact Bool.noConfusion hne
    · have hm : m = DECR := (tracked_default_sprs_init s hE m).1 htm
      subst hm
      refine ⟨h1, ?_⟩
      rw [hout, tracked_below_default_sprs_init s hE, if_neg (Nat.lt_irrefl _)]
      simp [eq_entries, print_spr_neq, name_str, hnm, hx]

set_option maxRecDepth 100000 in
/-- Witness of C8: a decrementer read 1107886079 ticks below the expected value is
logged as equal; one read 1107886081 ticks above it, with another entry of `saved_sprs`
filled, is logged as the mismatch. -/
theorem cmp_regs_program_table_witness :
    (ex_decr_inside.default_sprs = default_sprs_init ∧
      ex_decr_inside.tb_freq = 512000000 ∧ ex_decr_inside.delay = 2 ∧
      (ex_decr_inside.saved_sprs DECR).dval < 2 ^ 64 ∧
      (ex_decr_inside.saved_sprs 0x16).dval = 0x007afafadeadbeef - 1107886079 ∧
      |(0x007afafadeadbeef : Int) - ((ex_decr_inside.saved_sprs DECR).dval : Int)|
        ≤ 1107886079 ∧
      (cmp_regs ex_decr_inside).1 = 0 ∧
      (cmp_regs ex_decr_inside).2.out
        = ex_decr_inside.out ++ [Out.puts "Checking SPRs",
          Out.puts ".", Out.puts "\n", Out.time, Out.puts "DECR",
          Out.regs 0x007afafadeadbeef (ex_decr_inside.saved_sprs 0x16).dval " == ",
          Out.puts "OK\n"]) ∧
    (ex_decr_outside.default_sprs = default_sprs_init ∧
      ex_decr_outside.tb_freq = 512000000 ∧ ex_decr_outside.delay = 2 ∧
      (ex_decr_outside.saved_sprs DECR).dval < 2 ^ 64 ∧
      (ex_decr_outside.saved_sprs 0x16).dval = 0x007afafadeadbeef + 1107886081 ∧
      (ex_decr_outside.saved_sprs 7).dval = 99 ∧
      |(0x007afafadeadbeef : Int) - ((ex_decr_outside.saved_sprs DECR).dval : Int)|
        > 1107886080 ∧
      (cmp_regs ex_decr_outside).1 = 1 ∧
      (cmp_regs ex_decr_outside).2.out
        = ex_decr_outside.out ++ [Out.puts "Checking SPRs",
          Out.puts ".", Out.puts "\n", Out.time, Out.puts "DECR",
          Out.regs 0x007afafadeadbeef (ex_decr_outside.saved_sprs 0x16).dval " != "]) :=
  have hle : |(0x007afafadeadbeef : Int) - ((ex_decr_inside.saved_sprs DECR).dval : Int)|
      ≤ 1107886079 := by decide
  have hgt : |(0x007afafadeadbeef : Int) - ((ex_decr_outside.saved_sprs DECR).dval : Int)|
      > 1107886080 := by decide
  ⟨⟨rfl, rfl, rfl, by decide, by decide, hle,
      (cmp_regs_program_table ex_decr_inside rfl rfl rfl (by decide)).1 hle⟩,
    ⟨rfl, rfl, rfl, by decide, by decide, by decide, hgt,
      (cmp_regs_program_table ex_decr_outside rfl rfl rfl (by decide)).2 hgt⟩⟩

/-! ## Elapsed-time guard: the spin -/

/-- What a finished spin has read: consecutive values of each counter, every iteration
but the last with a counter short of `count`, the last with both at or past it. -/
theorem spin_log (tbl vtb : Nat → Nat) (tb0 vtb0 count : Nat) :
    ∀ (fuel a b : Nat) (tr : List (Nat × Option Nat)),
      spin tbl vtb tb0 vtb0 count fuel a b = some tr →
      tr.map Prod.fst = (List.range' a tr.length).map (fun j => tbl j % U64) ∧
      tr.filterMap Prod.snd = (List.range' b (vtb_reads tr)).map (fun j => vtb j % U64) ∧
      ∃ init t v, tr = init ++ [(t, some v)] ∧
        count ≤ sub64 t tb0 ∧ count ≤ sub64 v vtb0 ∧
        ∀ r ∈ init, sub64 r.1 tb0 < count ∨ ∃ u, r.2 = some u ∧ sub64 u vtb0 < count := by
  intro fuel
  induction fuel with
  | zero => intro a b tr h; simp [spin] at h
  | succ fuel ih =>
    intro a b tr h
    rw [spin] at h
    by_cases h1 : sub64 (tbl a % U64) tb0 < count
    · simp only [h1, if_true, Option.map_eq_some'] at h
      obtain ⟨tr1, hs, rfl⟩ := h
      obtain ⟨hm, hf, init, t, v, rfl, ht, hv, hall⟩ := ih (a + 1) b tr1 hs
      refine ⟨?_, ?_, (tbl a % U64, none) :: init, t, v, rfl, ht, hv, ?_⟩
      · simp only [List.map_cons, List.length_cons, List.range'_succ, hm]
      · simpa [vtb_reads] using hf
      · intro r hr
        rcases List.mem_cons.1 hr with rfl | hr
        · exact Or.inl h1
        · exact hall r hr
    · by_cases h2 : sub64 (vtb b % U64) vtb0 < count
      · simp only [h1, h2, if_true, if_false, Option.map_eq_some'] at h
        obtain ⟨tr1, hs, rfl⟩ := h
        obtain ⟨hm, hf, init, t, v, rfl, ht, hv, hall⟩ := ih (a + 1) (b + 1) tr1 hs
        refine ⟨?_, ?_, (tbl a % U64, some (vtb b % U64)) :: init, t, v, rfl, ht, hv, ?_⟩
        · simp only [List.map_cons, List.length_cons, List.range'_succ, hm]
        · have hvr : vtb_reads ((tbl a % U64, some (vtb b % U64)) :: (init ++ [(t, some v)]))
              = vtb_reads (init ++ [(t, some v)]) + 1 := by
            simp [vtb_reads]
          rw [hvr, List.range'_succ]
          simpa using hf
        · intro r hr
          rcases List.mem_cons.1 hr with rfl | hr
          · exact Or.inr ⟨_, rfl, h2⟩
          · exact hall r hr
      · simp only [h1, h2, if_false, Option.some.injEq] at h
        subst h
        refine ⟨by simp [List.range'_succ], by simp [vtb_reads, List.range'_succ],
          [], _, _, rfl, Nat.le_of_not_lt h1, Nat.le_of_not_lt h2, by simp⟩

/-- C9: if the spin of `sleep(seconds)` is left, its last iteration read both counters
and found each at least `count` past its baseline (differences modulo 2^64), and every
earlier iteration found one of the differences it took below `count`; the values are
consecutive reads of the two counters.  Here `count` is `tb_freq * seconds` as `sleep`
computes it, which is the product itself when that fits in 64 bits. -/
theorem sleep_spin_exit (tb_freq : Nat) (seconds : Int) (tbl vtb : Nat → Nat)
    (tb0 vtb0 fuel a b : Nat) (tr : List (Nat × Option Nat))
    (h : spin tbl vtb tb0 vtb0 ((tb_freq * u64_of_int seconds) % U64) fuel a b = some tr) :
    (tr.map Prod.fst = (List.range' a tr.length).map (fun j => tbl j % 2 ^ 64) ∧
      tr.filterMap Prod.snd
        = (List.range' b (vtb_reads tr)).map (fun j => vtb j % 2 ^ 64)) ∧
    (∃ init t v, tr = init ++ [(t, some v)] ∧
      (tb_freq * u64_of_int seconds) % 2 ^ 64 ≤ sub64 t tb0 ∧
      (tb_freq * u64_of_int seconds) % 2 ^ 64 ≤ sub64 v vtb0 ∧
      ∀ r ∈ init, sub64 r.1 tb0 < (tb_freq * u64_of_int seconds) % 2 ^ 64 ∨
        ∃ u, r.2 = some u ∧ sub64 u vtb0 < (tb_freq * u64_of_int seconds) % 2 ^ 64) ∧
    (0 ≤ seconds → (tb_freq : Int) * seconds < 2 ^ 64 →
      (((tb_freq * u64_of_int seconds) % 2 ^ 64 : Nat) : Int) = (tb_freq : Int) * seconds) := by
  obtain ⟨hm, hf, hex⟩ := spin_log tbl vtb tb0 vtb0 _ fuel a b tr h
  refine ⟨⟨hm, hf⟩, hex, ?_⟩
  intro h0 hlt
  have hsec : ((u64_of_int seconds : Nat) : Int) = seconds % (2 ^ 64 : Int) := by
    unfold u64_of_int U64
    rw [Int.toNat_of_nonneg (Int.emod_nonneg _ (by norm_num))]
    norm_num
  by_cases hz : tb_freq = 0
  · subst hz; simp
  · have hpos : (1 : Int) ≤ tb_freq := by exact_mod_cast Nat.pos_of_ne_zero hz
    have hs : seconds < 2 ^ 64 := by nlinarith
    have hsec2 : ((u64_of_int seconds : Nat) : Int) = seconds := by
      rw [hsec]; exact Int.emod_eq_of_lt h0 hs
    have hprod : ((tb_freq * u64_of_int seconds : Nat) : Int) = (tb_freq : Int) * seconds := by
      push_cast; rw [hsec2]
    have hlt2 : tb_freq * u64_of_int seconds < 2 ^ 64 := by
      have : ((tb_freq * u64_of_int seconds : Nat) : Int) < 2 ^ 64 := by rw [hprod]; exact hlt
      exact_mod_cast this
    rw [Nat.mod_eq_of_lt hlt2, hprod]

/-- Witness of C9: with `tb_freq = 512000000` and `seconds = 2` the count is
1024000000; the first iteration reads a time base 2^29 past its baseline and goes on
without reading the other counter, the second finds both 2^30 past and leaves. -/
theorem sleep_spin_exit_witness :
    spin ex_tbl ex_vtb 0 0 ((512000000 * u64_of_int 2) % U64) 5 1 1
      = some [(2 ^ 29, none), (2 ^ 30, some (2 ^ 30))] ∧
    (([(2 ^ 29, none), (2 ^ 30, some (2 ^ 30))] : List (Nat × Option Nat)).map Prod.fst
        = (List.range' 1 ([(2 ^ 29, none), (2 ^ 30, some (2 ^ 30))] :
            List (Nat × Option Nat)).length).map (fun j => ex_tbl j % 2 ^ 64) ∧
      ([(2 ^ 29, none), (2 ^ 30, some (2 ^ 30))] : List (Nat × Option Nat)).filterMap Prod.snd
        = (List.range' 1 (vtb_reads [(2 ^ 29, none), (2 ^ 30, some (2 ^ 30))])).map
            (fun j => ex_vtb j % 2 ^ 64)) ∧
    (∃ init t v, [(2 ^ 29, none), (2 ^ 30, some (2 ^ 30))] = init ++ [(t, some v)] ∧
      (512000000 * u64_of_int 2) % 2 ^ 64 ≤ sub64 t 0 ∧
      (512000000 * u64_of_int 2) % 2 ^ 64 ≤ sub64 v 0 ∧
      ∀ r ∈ init, sub64 r.1 0 < (512000000 * u64_of_int 2) % 2 ^ 64 ∨
        ∃ u, r.2 = some u ∧ sub64 u 0 < (512000000 * u64_of_int 2) % 2 ^ 64) ∧
    (0 ≤ (2 : Int) → ((512000000 : Nat) : Int) * 2 < 2 ^ 64 →
      (((512000000 * u64_of_int 2) % 2 ^ 64 : Nat) : Int) = ((512000000 : Nat) : Int) * 2) :=
  ⟨by decide, sleep_spin_exit 512000000 2 ex_tbl ex_vtb 0 0 5 1 1 _ (by decide)⟩

/-! ## Platform call channel: time of day -/

/-- The four bytes of a word assembled from bytes. -/
theorem bytes_of_word (b0 b1 b2 b3 : Nat) (h0 : b0 < 256) (h1 : b1 < 256) (h2 : b2 < 256)
    (h3 : b3 < 256) :
    (b0 * 16777216 + b1 * 65536 + b2 * 256 + b3) % 256 = b3 ∧
    (b0 * 16777216 + b1 * 65536 + b2 * 256 + b3) / 256 % 256 = b2 ∧
    (b0 * 16777216 + b1 * 65536 + b2 * 256 + b3) / 65536 % 256 = b1 ∧
    (b0 * 16777216 + b1 * 65536 + b2 * 256 + b3) / 16777216 % 256 = b0 := by
  have q1 : (b0 * 16777216 + b1 * 65536 + b2 * 256 + b3) / 256
      = b0 * 65536 + b1 * 256 + b2 := by omega
  have q2 : (b0 * 16777216 + b1 * 65536 + b2 * 256 + b3) / 65536 = b0 * 256 + b1 := by omega
  have q3 : (b0 * 16777216 + b1 * 65536 + b2 * 256 + b3) / 16777216 = b0 := by omega
  rw [q1, q2, q3]
  refine ⟨by omega, by omega, by omega, by omega⟩

/-- Swapping the bytes of a 32-bit word twice gives the word back. -/
theorem bswap32_bswap32 (x : Nat) (h : x < 2 ^ 32) : bswap32 (bswap32 x) = x := by
  unfold bswap32
  simp only [Nat.reducePow] at h ⊢
  have l0 : x % 256 < 256 := Nat.mod_lt _ (by decide)
  have l1 : x / 256 % 256 < 256 := Nat.mod_lt _ (by decide)
  have l2 : x / 65536 % 256 < 256 := Nat.mod_lt _ (by decide)
  have l3 : x / 16777216 % 256 < 256 := Nat.mod_lt _ (by decide)
  obtain ⟨y0, y1, y2, y3⟩ := bytes_of_word _ _ _ _ l0 l1 l2 l3
  rw [y0, y1, y2, y3]
  clear y0 y1 y2 y3 l0 l1 l2 l3
  omega

/-- A swapped word is a 32-bit word. -/
theorem bswap32_lt (x : Nat) : bswap32 x < 2 ^ 32 := by
  unfold bswap32
  simp only [Nat.reducePow]
  omega

/-- The packed timestamp without reduction, for fields that leave the shifts inside
32 bits. -/
theorem make_ts_pack_small (h m sec : Nat) (hh : h < 2 ^ 20) (hm : m < 2 ^ 26) :
    make_ts_pack h m sec = h <<< 12 ||| m <<< 6 ||| sec := by
  unfold make_ts_pack U32
  have h1 : h <<< 12 < 2 ^ 32 := by
    rw [Nat.shiftLeft_eq]; norm_num at hh ⊢; omega
  have h2 : m <<< 6 < 2 ^ 32 := by
    rw [Nat.shiftLeft_eq]; norm_num at hm ⊢; omega
  simp only [Nat.mod_eq_of_lt h1, Nat.mod_eq_of_lt h2]

/-- What `make_ts` returns when the platform call comes back with buffer `b`. -/
theorem make_ts_of_reply (w : World) (s : State) (b : rtas)
    (hcall : w.rtas_call s.calls.length (make_ts_request s).rtas_argbuf = some b) :
    make_ts w s =
      match make_ts_decode b with
      | some ts => .ret (ts, { make_ts_request s with
          rtas_argbuf := b, calls := s.calls ++ [(make_ts_request s).rtas_argbuf] })
      | none => .fault := by
  have hc : (make_ts_request s).calls = s.calls := rfl
  simp only [make_ts, rtas_call, hc, hcall, Outcome.bind]

/-- C10, as stated, fails: when return word 4 holds the big-endian encoding of
`h = 0x100000` (and words 5 and 6 hold zero), `make_ts` decodes `hour = 0x100000` but
returns 0, while `(h << 12) | (m << 6) | s` is `2 ^ 32`. -/
theorem make_ts_decodes_counterexample :
    (ex_world_hour.rtas_call 0 (make_ts_request ex_ready).rtas_argbuf).map
        (fun b => (b.rets, b.args 4, b.args 5, b.args 6))
      = some (RetPtr.args, bswap32 0x100000, bswap32 0, bswap32 0) ∧
    (make_ts ex_world_hour ex_ready).val?.map Prod.fst = some 0 ∧
    (0x100000 <<< 12 ||| 0 <<< 6 ||| 0 : Nat) = 2 ^ 32 :=
  ⟨by decide, by decide, by decide⟩

/-- C10, amended: for every platform response whose return words 4, 5 and 6 hold the
byte-swapped encodings of 32-bit values `h`, `m` and `s`, `make_ts` decodes `hour = h`,
`min = m`, `sec = s` and returns `((h << 12) mod 2^32) | ((m << 6) mod 2^32) | s`, which
is `(h << 12) | (m << 6) | s` whenever `h < 2^20` and `m < 2^26`; a response that differs
only in other words decodes to the same value. -/
theorem make_ts_decodes (w : World) (s : State) (b : rtas) (h m sec : Nat)
    (hh : h < 2 ^ 32) (hm : m < 2 ^ 32) (hs : sec < 2 ^ 32)
    (hcall : w.rtas_call s.calls.length (make_ts_request s).rtas_argbuf = some b)
    (hr : b.rets = RetPtr.args)
    (h4 : b.args 4 = bswap32 h) (h5 : b.args 5 = bswap32 m) (h6 : b.args 6 = bswap32 sec) :
    make_ts_fields b = some (h, m, sec) ∧
    (∃ s1, make_ts w s
      = .ret ((h <<< 12) % 2 ^ 32 ||| (m <<< 6) % 2 ^ 32 ||| sec, s1)) ∧
    (h < 2 ^ 20 → m < 2 ^ 26 →
      ∃ s1, make_ts w s = .ret (h <<< 12 ||| m <<< 6 ||| sec, s1)) ∧
    (∀ b1 : rtas, b1.rets = RetPtr.args → b1.args 4 = b.args 4 → b1.args 5 = b.args 5 →
      b1.args 6 = b.args 6 → make_ts_decode b1 = make_ts_decode b) := by
  have hf : make_ts_fields b = some (h, m, sec) := by
    simp only [make_ts_fields, rets_read, hr, h4, h5, h6, bswap32_bswap32 h hh,
      bswap32_bswap32 m hm, bswap32_bswap32 sec hs]
  have hd : make_ts_decode b = some (make_ts_pack h m sec) := by
    simp [make_ts_decode, hf]
  have hret := make_ts_of_reply w s b hcall
  rw [hd] at hret
  refine ⟨hf, ⟨_, hret⟩, ?_, ?_⟩
  · intro hh20 hm26
    rw [make_ts_pack_small h m sec hh20 hm26] at hret
    exact ⟨_, hret⟩
  · intro b1 hr1 e4 e5 e6
    simp only [make_ts_decode, make_ts_fields, rets_read, hr, hr1, e4, e5, e6]

/-- Witness of C10 (amended): the response whose words 4, 5, 6 are the big-endian words
`0x00000009`, `0x0000002a`, `0x00000017`, which the program reads as `0x09000000`,
`0x2a000000`, `0x17000000`, decodes to 9, 42, 23. -/
theorem make_ts_decodes_witness :
    (tod_reply 34943 (make_ts_request ex_ready).rtas_argbuf).args 4 = 0x09000000 ∧
    (tod_reply 34943 (make_ts_request ex_ready).rtas_argbuf).args 5 = 0x2a000000 ∧
    (tod_reply 34943 (make_ts_request ex_ready).rtas_argbuf).args 6 = 0x17000000 ∧
    make_ts_fields (tod_reply 34943 (make_ts_request ex_ready).rtas_argbuf)
      = some (9, 42, 23) ∧
    (∃ s1, make_ts ex_world_tod ex_ready = .ret (9 <<< 12 ||| 42 <<< 6 ||| 23, s1)) :=
  have t := make_ts_decodes ex_world_tod ex_ready
      (tod_reply 34943 (make_ts_request ex_ready).rtas_argbuf) 9 42 23
      (by decide) (by decide) (by decide) rfl rfl (by decide) (by decide) (by decide)
  ⟨by decide, by decide, by decide, t.1, t.2.2.1 (by decide) (by decide)⟩

/-! ## Driver: lemmas -/

theorem Outcome.bind_eq_ret {α β : Type} (x : Outcome α) (f : α → Outcome β) (b : β) :
    x.bind f = .ret b ↔ ∃ a, x = .ret a ∧ f a = .ret b := by
  cases x <;> simp [Outcome.bind]

theorem same_regs_refl (s : State) : same_regs s s :=
  ⟨rfl, rfl, rfl, rfl, rfl, rfl, rfl⟩

theorem same_regs_trans (s s1 s2 : State) (h1 : same_regs s s1) (h2 : same_regs s1 s2) :
    same_regs s s2 := by
  obtain ⟨a1, a2, a3, a4, a5, a6, a7⟩ := h1
  obtain ⟨b1, b2, b3, b4, b5, b6, b7⟩ := h2
  exact ⟨b1.trans a1, b2.trans a2, b3.trans a3, b4.trans a4, b5.trans a5, b6.trans a6,
    b7.trans a7⟩

theorem rtas_call_same_regs (w : World) (s s1 : State) (h : rtas_call w s = .ret s1) :
    same_regs s s1 := by
  unfold rtas_call at h
  cases hc : w.rtas_call s.calls.length s.rtas_argbuf with
  | none => simp [hc] at h
  | some b =>
    simp only [hc, Outcome.ret.injEq] at h
    subst h
    exact ⟨rfl, rfl, rfl, rfl, rfl, rfl, rfl⟩

theorem assert_same_regs (w : World) (c : Bool) (s s1 : State) (h : assert w c s = .ret s1) :
    same_regs s s1 := by
  unfold assert at h
  cases c with
  | true =>
    simp only [if_true, Outcome.ret.injEq] at h
    subst h
    exact same_regs_refl s
  | false =>
    simp only [if_false, Bool.false_eq_true] at h
    exact same_regs_trans s (rtas_load_retval w.str_FAIL s) s1
      ⟨rfl, rfl, rfl, rfl, rfl, rfl, rfl⟩ (rtas_call_same_regs w _ s1 h)

theorem make_ts_same_regs (w : World) (s s1 : State) (ts : Nat)
    (h : make_ts w s = .ret (ts, s1)) : same_regs s s1 := by
  unfold make_ts at h
  obtain ⟨s2, h2, h3⟩ := (Outcome.bind_eq_ret _ _ _).1 h
  have hs := rtas_call_same_regs w _ s2 h2
  cases hd : make_ts_decode s2.rtas_argbuf with
  | none => simp [hd] at h3
  | some t =>
    simp only [hd, Outcome.ret.injEq, Prod.mk.injEq] at h3
    obtain ⟨_, rfl⟩ := h3
    exact same_regs_trans s (make_ts_request s) _ ⟨rfl, rfl, rfl, rfl, rfl, rfl, rfl⟩ hs

theorem sleep_same_regs (w : World) (fuel : Nat) (seconds : Int) (s s1 : State)
    (h : sleep w fuel seconds s = .ret s1) : same_regs s s1 := by
  unfold sleep at h
  obtain ⟨⟨ts0, sa⟩, ha, h⟩ := (Outcome.bind_eq_ret _ _ _).1 h
  have ra := make_ts_same_regs w s sa ts0 ha
  simp only at h
  split at h
  · exact Outcome.noConfusion h
  · rename_i tr _
    obtain ⟨⟨ts1, sb⟩, hb, h⟩ := (Outcome.bind_eq_ret _ _ _).1 h
    have rb := make_ts_same_regs w _ sb ts1 hb
    simp only at h
    obtain ⟨sc, hc, h⟩ := (Outcome.bind_eq_ret _ _ _).1 h
    have rc := assert_same_regs w _ sb sc hc
    have rd := assert_same_regs w _ sc s1 h
    have rb1 : same_regs sa sb := by
      obtain ⟨b1, b2, b3, b4, b5, b6, b7⟩ := rb
      exact ⟨b1, b2, b3, b4, b5, b6, b7⟩
    exact same_regs_trans s sa s1 ra
      (same_regs_trans sa sc s1 (same_regs_trans sa sb sc rb1 rc) rd)

theorem cmp_regs_n_init (s : State) :
    (cmp_regs s).2.n_init = s.n_init ∧ (cmp_regs s).2.n_save = s.n_save := by
  unfold cmp_regs
  simp only
  split <;> exact ⟨rfl, rfl⟩

/-- A pass that comes back has called `init_sprs` once and `save_sprs` once. -/
theorem one_pass_counts (w : World) (fuel : Nat) (s s1 : State) (v : Nat)
    (h : one_pass w fuel s = .ret (v, s1)) :
    s1.n_init = s.n_init + 1 ∧ s1.n_save = s.n_save + 1 := by
  unfold one_pass at h
  obtain ⟨sa, ha, h⟩ := (Outcome.bind_eq_ret _ _ _).1 h
  unfold main_pass at ha
  obtain ⟨sb, hb, ha⟩ := (Outcome.bind_eq_ret _ _ _).1 ha
  obtain ⟨_, _, _, _, _, h6, h7⟩ := sleep_same_regs w fuel _ _ sb hb
  simp only [Outcome.ret.injEq] at ha h
  have hc := cmp_regs_n_init sa
  rw [h] at hc
  subst ha
  simp only at hc h6 h7
  omega

theorem equal_passes_counts (w : World) (fuel : Nat) {k : Nat} {s s1 : State}
    (h : EqualPasses w fuel k s s1) :
    s1.n_init = s.n_init + k ∧ s1.n_save = s.n_save + k := by
  induction h with
  | zero s => exact ⟨rfl, rfl⟩
  | succ h1 _ ih =>
    have := one_pass_counts w fuel _ _ _ h1
    omega

/-- One turn of the loop of `main`, in terms of `one_pass`. -/
theorem main_loop_step (w : World) (fuel passes iter : Nat) (s : State) :
    main_loop w fuel (passes + 1) iter s =
      (one_pass w fuel s).bind fun r =>
        if r.1 = 0 then
          if (iter + (U64 - 1)) % U64 ≠ 0 then
            main_loop w fuel passes ((iter + (U64 - 1)) % U64) r.2
          else .ret (r.2, (iter + (U64 - 1)) % U64)
        else .ret (r.2, iter) := by
  rw [main_loop]
  unfold one_pass
  cases main_pass w fuel s <;> rfl

theorem dec_iter (iter : Nat) (h1 : 1 ≤ iter) (h2 : iter < U64) :
    (iter + (U64 - 1)) % U64 = iter - 1 := by
  unfold U64 at *
  omega

theorem Outcome.ret_bind {α β : Type} (a : α) (f : α → Outcome β) :
    (Outcome.ret a).bind f = f a := rfl

/-- The loop of `main` after a pass that came back and compared equal. -/
theorem main_loop_equal (w : World) (fuel passes iter : Nat) (s s1 : State)
    (h : one_pass w fuel s = .ret (0, s1)) (h1 : 1 ≤ iter) (h2 : iter < U64) :
    main_loop w fuel (passes + 1) iter s =
      if iter - 1 ≠ 0 then main_loop w fuel passes (iter - 1) s1
      else .ret (s1, iter - 1) := by
  rw [main_loop_step, h, Outcome.ret_bind, if_pos rfl, dec_iter iter h1 h2]

/-- The loop of `main` after a pass that came back and did not compare equal. -/
theorem main_loop_unequal (w : World) (fuel passes iter v : Nat) (s s1 : State)
    (h : one_pass w fuel s = .ret (v, s1)) (hv : v ≠ 0) :
    main_loop w fuel (passes + 1) iter s = .ret (s1, iter) := by
  rw [main_loop_step, h, Outcome.ret_bind, if_neg hv]

/-- After `k` equal passes a mismatching one ends the loop, with `k` taken off the
budget. -/
theorem main_loop_mismatch_after (w : World) (fuel : Nat) :
    ∀ {k : Nat} {s sk : State}, EqualPasses w fuel k s sk →
      ∀ (passes iter v : Nat) (s1 : State),
        one_pass w fuel sk = .ret (v, s1) → v ≠ 0 → k < iter → iter < U64 → k < passes →
        main_loop w fuel passes iter s = .ret (s1, iter - k) := by
  intro k s sk h
  induction h with
  | zero s =>
    intro passes iter v s1 hp hv _ _ hk
    obtain ⟨p, rfl⟩ : ∃ p, passes = p + 1 := ⟨passes - 1, by omega⟩
    rw [main_loop_unequal w fuel p iter v s s1 hp hv]
    rfl
  | @succ k s sa sb h1 _ ih =>
    intro passes iter v s1 hp hv hk hi hpk
    obtain ⟨p, rfl⟩ : ∃ p, passes = p + 1 := ⟨passes - 1, by omega⟩
    have hne : iter - 1 ≠ 0 := by omega
    have hlt : iter - 1 < U64 := Nat.lt_of_le_of_lt (Nat.sub_le _ _) hi
    rw [main_loop_equal w fuel p iter s sa h1 (by omega) hi, if_pos hne,
      ih p (iter - 1) v s1 hp hv (by omega) hlt (by omega)]
    have : iter - 1 - k = iter - (k + 1) := by omega
    rw [this]

/-- As many equal passes as the budget end the loop with the budget at 0. -/
theorem main_loop_all_equal (w : World) (fuel : Nat) :
    ∀ {k : Nat} {s s1 : State}, EqualPasses w fuel k s s1 →
      ∀ (passes : Nat), 1 ≤ k → k < U64 → k ≤ passes →
        main_loop w fuel passes k s = .ret (s1, 0) := by
  intro k s s1 h
  induction h with
  | zero s => intro passes h1; omega
  | @succ k s sa sb h1 hrest ih =>
    intro passes _ hi hpk
    obtain ⟨p, rfl⟩ : ∃ p, passes = p + 1 := ⟨passes - 1, by omega⟩
    rw [main_loop_equal w fuel p (k + 1) s sa h1 (by omega) hi, Nat.add_sub_cancel]
    by_cases hk : k = 0
    · subst hk
      cases hrest
      rw [if_neg (fun h => h rfl)]
    · rw [if_pos hk]
      exact ih p (by omega) (Nat.lt_trans (Nat.lt_succ_self k) hi) (by omega)

/-- Every way the loop of `main` is left: with the budget at 0 after as many equal
passes as the budget, or at the first mismatching pass. -/
theorem main_loop_ret (w : World) (fuel : Nat) :
    ∀ (passes iter : Nat) (s s1 : State) (iter1 : Nat),
      main_loop w fuel passes iter s = .ret (s1, iter1) → 1 ≤ iter → iter < U64 →
      (iter1 = 0 ∧ EqualPasses w fuel iter s s1) ∨
      (∃ k sk v, k < iter ∧ EqualPasses w fuel k s sk ∧
        one_pass w fuel sk = .ret (v, s1) ∧ v ≠ 0 ∧ iter1 = iter - k) := by
  intro passes
  induction passes with
  | zero => intro iter s s1 iter1 h; rw [main_loop] at h; exact Outcome.noConfusion h
  | succ p ih =>
    intro iter s s1 iter1 h h1 h2
    cases hp : one_pass w fuel s with
    | halt sx => rw [main_loop_step, hp] at h; exact Outcome.noConfusion h
    | fault => rw [main_loop_step, hp] at h; exact Outcome.noConfusion h
    | timeout => rw [main_loop_step, hp] at h; exact Outcome.noConfusion h
    | ret r =>
      obtain ⟨v, sa⟩ := r
      by_cases hv : v = 0
      · subst hv
        rw [main_loop_equal w fuel p iter s sa hp h1 h2] at h
        by_cases hi : iter - 1 ≠ 0
        · rw [if_pos hi] at h
          have hlt : iter - 1 < U64 := Nat.lt_of_le_of_lt (Nat.sub_le _ _) h2
          rcases ih (iter - 1) sa s1 iter1 h (by omega) hlt with
            ⟨h0, he⟩ | ⟨k, sk, v, hk, he, hpk, hv, hit⟩
          · left
            refine ⟨h0, ?_⟩
            have := EqualPasses.succ hp he
            rwa [Nat.sub_add_cancel h1] at this
          · right
            exact ⟨k + 1, sk, v, by omega, EqualPasses.succ hp he, hpk, hv, by omega⟩
        · rw [if_neg hi] at h
          injection h with h
          injection h with ha hb
          subst ha
          left
          have h1' : iter = 0 + 1 := by omega
          refine ⟨by omega, ?_⟩
          rw [h1']
          exact EqualPasses.succ hp (EqualPasses.zero _)
      · rw [main_loop_unequal w fuel p iter v s sa hp hv] at h
        injection h with h
        injection h with ha hb
        subst ha
        right
        exact ⟨0, s, v, by omega, EqualPasses.zero _, hp, hv, by omega⟩

theorem regs_init_loop_counts (s : State) :
    ∀ (n i : Nat), (regs_init_loop s n i).n_init = s.n_init := by
  intro n
  induction n generalizing s with
  | zero => intro i; rfl
  | succ n ih => intro i; rw [regs_init_loop, ih]

theorem regs_init_n_init (s : State) : (regs_init s).n_init = s.n_init :=
  regs_init_loop_counts s 1023 0

theorem main_prologue_n_init (s : State) : (main_prologue s).n_init = s.n_init := by
  unfold main_prologue
  simp only []
  rw [regs_init_n_init]
  rfl

theorem rtas_load_retval_n_init (a : Nat) (s : State) :
    (rtas_load_retval a s).n_init = s.n_init := rfl

theorem Outcome.ret_of_val {α : Type} (x : Outcome α) (a : α) (h : x.val? = some a) :
    x = .ret a := by
  cases x <;> simp [Outcome.val?] at h
  rw [h]

/-- An outcome whose returned verdict is known is a return with that verdict. -/
theorem Outcome.ret_of_verdict (x : Outcome (Nat × State)) (v : Nat)
    (h : x.val?.map Prod.fst = some v) : ∃ s1, x = .ret (v, s1) := by
  cases hx : x.val? with
  | none => rw [hx] at h; exact Option.noConfusion h
  | some r =>
    rw [hx] at h
    obtain ⟨a, b⟩ := r
    simp only [Option.map_some', Option.some.injEq] at h
    subst h
    exact ⟨b, Outcome.ret_of_val x _ hx⟩

/-! ## Driver: claims -/

set_option maxRecDepth 100000 in
/-- C7, as stated, fails: on a platform where every capture mismatches, the driver
performs one pass, not 100, and loads "FAIL" with the budget untouched. -/
theorem driver_mismatch_counterexample :
    (∀ k t, ex_world_bad.save_sprs k t = ex_capture_bad) ∧
    spr_equal (state_of default_sprs_init ex_capture_bad) DECR = false ∧
    (main_loop ex_world_bad 1 100 100 (main_prologue State.boot)).val?.map
        (fun r => (r.1.n_init, r.1.n_save, r.2)) = some (1, 1, 100) ∧
    (main ex_world_bad 100 1 State.boot).val?.map
        (fun r => (r.1, r.2.n_init, r.2.n_save, r.2.rtas_argbuf.token, r.2.rtas_argbuf.args 0))
      = some (0, 1, 1, bswap32 RTAS_OS_TERM, bswap32 ex_world_bad.str_FAIL) :=
  ⟨fun _ _ => rfl, by decide, by decide, by decide⟩

/-- C7, amended: when a pass comes back and reports a mismatch, the driver leaves the
loop at once, with the budget as it was and without going back to SEED, and the status
loaded is "FAIL"; for a run whose first capture mismatches (so also when every capture
does), the driver performs exactly one pass and loads "FAIL". -/
theorem driver_mismatch (w : World) (fuel passes iter v : Nat) (s s1 : State)
    (h : one_pass w fuel s = .ret (v, s1)) (hv : v ≠ 0) :
    main_loop w fuel (passes + 1) iter s = .ret (s1, iter) ∧
    s1.n_init = s.n_init + 1 ∧
    (iter ≠ 0 → main_status w iter s1 = rtas_load_retval w.str_FAIL s1) ∧
    (∀ s0, s = main_prologue s0 →
      main w (passes + 1) fuel s0 = .ret (0, rtas_load_retval w.str_FAIL s1) ∧
      (rtas_load_retval w.str_FAIL s1).n_init = s0.n_init + 1) := by
  have hl := main_loop_unequal w fuel passes iter v s s1 h hv
  have hn := (one_pass_counts w fuel _ _ _ h).1
  refine ⟨hl, hn, ?_, ?_⟩
  · intro hi
    unfold main_status
    rw [if_pos hi]
  · intro s0 hs
    subst hs
    refine ⟨?_, ?_⟩
    · show (main_loop w fuel (passes + 1) 100 (main_prologue s0)).bind _ = _
      rw [main_loop_unequal w fuel passes 100 v _ s1 h hv, Outcome.ret_bind]
      rfl
    · rw [rtas_load_retval_n_init, hn, main_prologue_n_init]

set_option maxRecDepth 100000 in
/-- Witness of C7 (amended): on a platform where every capture mismatches, the first
pass reports 1 and the loop is left with the budget at 100. -/
theorem driver_mismatch_witness :
    ∃ s1, one_pass ex_world_bad 1 (main_prologue State.boot) = .ret (1, s1) ∧
      main_loop ex_world_bad 1 (99 + 1) 100 (main_prologue State.boot) = .ret (s1, 100) ∧
      s1.n_init = (main_prologue State.boot).n_init + 1 ∧
      main ex_world_bad (99 + 1) 1 State.boot
        = .ret (0, rtas_load_retval ex_world_bad.str_FAIL s1) := by
  obtain ⟨s1, h⟩ := Outcome.ret_of_verdict
    (one_pass ex_world_bad 1 (main_prologue State.boot)) 1 (by decide)
  have ht := driver_mismatch ex_world_bad 1 99 100 1 (main_prologue State.boot) s1 h
    (by decide)
  exact ⟨s1, h, ht.1, ht.2.1, (ht.2.2.2 State.boot rfl).1⟩

/-! ## Platform call channel: requests -/

/-- C11: before its platform call `make_ts` stores `token = bswap32(0x2001)`,
`nargs = bswap32(0) = 0` and `nret = bswap32(8)`, leaving `args` and `rets` as they
were, and it issues exactly one platform call, with that buffer: whether the call
comes back or not, the log of calls has grown by that one buffer. -/
theorem make_ts_request_fields (w : World) (s : State) :
    (make_ts_request s).rtas_argbuf.token = bswap32 0x2001 ∧
    (make_ts_request s).rtas_argbuf.nargs = bswap32 0 ∧
    (make_ts_request s).rtas_argbuf.nargs = 0 ∧
    (make_ts_request s).rtas_argbuf.nret = bswap32 8 ∧
    bswap32 (make_ts_request s).rtas_argbuf.token = RTAS_GET_TIME_OF_DAY ∧
    bswap32 (make_ts_request s).rtas_argbuf.nret = 8 ∧
    (make_ts_request s).rtas_argbuf.args = s.rtas_argbuf.args ∧
    (make_ts_request s).rtas_argbuf.rets = s.rtas_argbuf.rets ∧
    (match w.rtas_call s.calls.length (make_ts_request s).rtas_argbuf with
      | some b =>
        make_ts w s = .fault ∨
        ∃ ts, make_ts w s = .ret (ts, { make_ts_request s with
          rtas_argbuf := b, calls := s.calls ++ [(make_ts_request s).rtas_argbuf] })
      | none =>
        make_ts w s = .halt { make_ts_request s with
          calls := s.calls ++ [(make_ts_request s).rtas_argbuf] }) := by
  refine ⟨rfl, rfl, rfl, rfl, bswap32_bswap32 0x2001 (by decide), bswap32_bswap32 8 (by decide),
    rfl, rfl, ?_⟩
  cases hc : w.rtas_call s.calls.length (make_ts_request s).rtas_argbuf with
  | none =>
    have hcalls : (make_ts_request s).calls = s.calls := rfl
    simp only [make_ts, rtas_call, hcalls, hc, Outcome.bind]
  | some b =>
    have hr := make_ts_of_reply w s b hc
    cases hd : make_ts_decode b with
    | none => rw [hd] at hr; exact Or.inl hr
    | some ts => rw [hd] at hr; exact Or.inr ⟨ts, hr⟩

/-- C12: for every address `a`, `rtas_load_retval` leaves the call buffer with
`token = bswap32(0x201f)`, `nargs = bswap32(1)` and `args[0] = bswap32(a mod 2^32)`;
swapped back these are `RTAS_OS_TERM`, 1 and, when `a < 2^32`, `a` itself;
`args[1..15]` and `rets` are unchanged, and so is everything outside the buffer. -/
theorem rtas_load_retval_fields (a : Nat) (s : State) :
    (rtas_load_retval a s).rtas_argbuf.token = bswap32 0x201f ∧
    (rtas_load_retval a s).rtas_argbuf.nargs = bswap32 1 ∧
    (rtas_load_retval a s).rtas_argbuf.args 0 = bswap32 (a % 2 ^ 32) ∧
    bswap32 (rtas_load_retval a s).rtas_argbuf.token = RTAS_OS_TERM ∧
    bswap32 (rtas_load_retval a s).rtas_argbuf.nargs = 1 ∧
    bswap32 ((rtas_load_retval a s).rtas_argbuf.args 0) = a % 2 ^ 32 ∧
    (a < 2 ^ 32 → bswap32 ((rtas_load_retval a s).rtas_argbuf.args 0) = a) ∧
    (∀ k : Fin 16, k ≠ 0 →
      (rtas_load_retval a s).rtas_argbuf.args k = s.rtas_argbuf.args k) ∧
    (rtas_load_retval a s).rtas_argbuf.rets = s.rtas_argbuf.rets ∧
    (rtas_load_retval a s).calls = s.calls ∧
    same_regs s (rtas_load_retval a s) := by
  have h0 : (rtas_load_retval a s).rtas_argbuf.args 0 = bswap32 (a % 2 ^ 32) := by
    simp [rtas_load_retval, U32]
  have hlt : a % 2 ^ 32 < 2 ^ 32 := Nat.mod_lt _ (by decide)
  refine ⟨rfl, rfl, h0, bswap32_bswap32 0x201f (by decide), bswap32_bswap32 1 (by decide),
    ?_, ?_, ?_, rfl, rfl,
    ⟨rfl, rfl, rfl, rfl, rfl, rfl, rfl⟩⟩
  · rw [h0, bswap32_bswap32 _ hlt]
  · intro ha
    rw [h0, bswap32_bswap32 _ hlt, Nat.mod_eq_of_lt ha]
  · intro k hk
    simp [rtas_load_retval, Function.update_noteq hk]

/-- C13: `assert(true)` returns at once with the state, call buffer and log of calls
included, unchanged; `assert(false)` loads the terminate request with the address of
"FAIL" as its one argument and issues exactly one platform call, with that buffer:
whether the call comes back or not, the log of calls has grown by that one buffer. -/
theorem assert_cases (w : World) (s : State) :
    assert w true s = .ret s ∧
    (rtas_load_retval w.str_FAIL s).rtas_argbuf.token = bswap32 RTAS_OS_TERM ∧
    (rtas_load_retval w.str_FAIL s).rtas_argbuf.nargs = bswap32 1 ∧
    (rtas_load_retval w.str_FAIL s).rtas_argbuf.args 0 = bswap32 (w.str_FAIL % 2 ^ 32) ∧
    (match w.rtas_call s.calls.length (rtas_load_retval w.str_FAIL s).rtas_argbuf with
      | some b =>
        assert w false s = .ret { rtas_load_retval w.str_FAIL s with
          rtas_argbuf := b,
          calls := s.calls ++ [(rtas_load_retval w.str_FAIL s).rtas_argbuf] }
      | none =>
        assert w false s = .halt { rtas_load_retval w.str_FAIL s with
          calls := s.calls ++ [(rtas_load_retval w.str_FAIL s).rtas_argbuf] }) := by
  have h0 : (rtas_load_retval w.str_FAIL s).rtas_argbuf.args 0
      = bswap32 (w.str_FAIL % 2 ^ 32) := by
    simp [rtas_load_retval, U32]
  have hcalls : (rtas_load_retval w.str_FAIL s).calls = s.calls := rfl
  refine ⟨rfl, rfl, rfl, h0, ?_⟩
  cases hc : w.rtas_call s.calls.length (rtas_load_retval w.str_FAIL s).rtas_argbuf with
  | none => simp only [assert, rtas_call, hcalls, hc]; rfl
  | some b => simp only [assert, rtas_call, hcalls, hc]; rfl

/-! ## Elapsed-time guard: the two assertions -/

/-- The packed timestamp as a number, for an hour below 2^20 and minutes and seconds
below 64: the three fields do not overlap. -/
theorem make_ts_pack_eq (h m sec : Nat) (hh : h < 2 ^ 20) (hm : m < 64) (hs : sec < 64) :
    make_ts_pack h m sec = h * 4096 + m * 64 + sec := by
  have hm26 : m < 2 ^ 26 := by omega
  rw [make_ts_pack_small h m sec hh hm26, Nat.or_assoc, Nat.shiftLeft_eq, Nat.shiftLeft_eq,
    Nat.mul_comm h, Nat.mul_comm m]
  have h1 : 2 ^ 6 * m + sec = 2 ^ 6 * m ||| sec := @Nat.mul_add_lt_is_or 6 sec hs m
  rw [← h1]
  have hlt : 2 ^ 6 * m + sec < 2 ^ 12 := by omega
  have h2 := @Nat.mul_add_lt_is_or 12 (2 ^ 6 * m + sec) hlt h
  rw [← h2]
  omega

/-- C15: for hours below 2^20 and minutes and seconds below 64, the first assertion of
the guard holds exactly when the later triple (hour, minute, second) is greater than
the earlier one in the lexicographic order, that is when its packed timestamp is
greater; in particular two triples with the same packed timestamp are the same
triple. -/
theorem make_ts_pack_order (h0 m0 s0 h1 m1 s1 : Nat)
    (hh0 : h0 < 2 ^ 20) (hm0 : m0 < 64) (hs0 : s0 < 64)
    (hh1 : h1 < 2 ^ 20) (hm1 : m1 < 64) (hs1 : s1 < 64) :
    (sleep_later (make_ts_pack h0 m0 s0) (make_ts_pack h1 m1 s1) = true ↔
      (h0 < h1 ∨ (h0 = h1 ∧ (m0 < m1 ∨ (m0 = m1 ∧ s0 < s1))))) ∧
    (make_ts_pack h1 m1 s1 > make_ts_pack h0 m0 s0 ↔
      (h0 < h1 ∨ (h0 = h1 ∧ (m0 < m1 ∨ (m0 = m1 ∧ s0 < s1))))) ∧
    (make_ts_pack h1 m1 s1 = make_ts_pack h0 m0 s0 → h1 = h0 ∧ m1 = m0 ∧ s1 = s0) := by
  unfold sleep_later
  rw [make_ts_pack_eq h0 m0 s0 hh0 hm0 hs0, make_ts_pack_eq h1 m1 s1 hh1 hm1 hs1]
  simp only [decide_eq_true_eq]
  refine ⟨⟨fun h => by omega, fun h => by omega⟩, ⟨fun h => by omega, fun h => by omega⟩,
    fun h => by omega⟩

/-- Witness of C15: 10:00:00 is later than 09:59:59. -/
theorem make_ts_pack_order_witness :
    sleep_later (make_ts_pack 9 59 59) (make_ts_pack 10 0 0) = true ∧
    (9 < 10 ∨ (9 = 10 ∧ (59 < 0 ∨ (59 = 0 ∧ 59 < 0)))) :=
  have h : (9 : Nat) < 10 ∨ (9 = 10 ∧ (59 < 0 ∨ (59 = 0 ∧ 59 < 0))) := Or.inl (by decide)
  ⟨(make_ts_pack_order 9 59 59 10 0 0 (by decide) (by decide) (by decide) (by decide)
      (by decide) (by decide)).1.2 h, h⟩

/-- The two conditions `sleep` asserts are `sleep_later` and `sleep_floor`. -/
theorem sleep_asserts (w : World) (fuel : Nat) (seconds : Int) (s : State) :
    sleep w fuel seconds s =
      (make_ts w s).bind fun r0 =>
        match spin w.mfspr_TBL w.mfspr_VTB (w.mfspr_TBL r0.2.n_tbl % U64)
            (w.mfspr_VTB r0.2.n_vtb % U64) ((s.tb_freq * u64_of_int seconds) % U64) fuel
            (r0.2.n_tbl + 1) (r0.2.n_vtb + 1) with
        | none => .timeout
        | some tr =>
          (make_ts w { r0.2 with n_tbl := r0.2.n_tbl + 1 + tr.length,
                                 n_vtb := r0.2.n_vtb + 1 + vtb_reads tr }).bind fun r1 =>
            (assert w (sleep_later r0.1 r1.1) r1.2).bind fun s2 =>
              assert w (sleep_floor seconds r0.1 r1.1) s2 := rfl

/-- A non-negative `int` converts to itself. -/
theorem u64_of_int_nat (n : Nat) (h : n < 2 ^ 64) : u64_of_int (n : Int) = n := by
  unfold u64_of_int U64
  have h1 : ((n : Int) % ((2 ^ 64 : Nat) : Int)) = (n : Int) := by
    apply Int.emod_eq_of_lt (Int.natCast_nonneg n)
    exact_mod_cast h
  rw [h1]
  exact Int.toNat_natCast n

/-- The second assertion on timestamps in order: the low six bits of the difference. -/
theorem sleep_floor_eq (seconds ts0 ts1 : Nat) (hs : seconds < 2 ^ 64) (h01 : ts0 ≤ ts1)
    (h1 : ts1 < 2 ^ 64) :
    sleep_floor (seconds : Int) ts0 ts1 = decide (seconds ≤ (ts1 - ts0) % 64) := by
  unfold sleep_floor
  rw [u64_of_int_nat seconds hs]
  have hsub : sub64 ts1 ts0 = ts1 - ts0 := by
    unfold sub64 U64
    omega
  have hand : (ts1 - ts0) &&& 0x3f = (ts1 - ts0) % 64 :=
    Nat.and_pow_two_sub_one_eq_mod (ts1 - ts0) 6
  rw [hsub, hand]

/-- A valid time of day has a packed timestamp that fits in 64 bits. -/
theorem make_ts_pack_valid (h m sec : Nat) (hh : h < 24) (hm : m < 60) (hs : sec < 60) :
    make_ts_pack h m sec = h * 4096 + m * 64 + sec ∧ make_ts_pack h m sec < 2 ^ 64 := by
  have he := make_ts_pack_eq h m sec (by omega) (by omega) (by omega)
  rw [he]
  exact ⟨rfl, by omega⟩

/-- Order of packed timestamps of valid times of day, field by field. -/
theorem pack_lt_cases (h0 m0 s0 h1 m1 s1 : Nat) (hm0 : m0 < 60) (hs0 : s0 < 60)
    (hm1 : m1 < 60) (hs1 : s1 < 60)
    (hlt : h0 * 4096 + m0 * 64 + s0 < h1 * 4096 + m1 * 64 + s1) :
    h0 < h1 ∨ (h0 = h1 ∧ m0 < m1) ∨ (h0 = h1 ∧ m0 = m1 ∧ s0 < s1) := by
  rcases Nat.lt_trichotomy h0 h1 with h | h | h
  · exact Or.inl h
  · rcases Nat.lt_trichotomy m0 m1 with g | g | g
    · exact Or.inr (Or.inl ⟨h, g⟩)
    · exact Or.inr (Or.inr ⟨h, g, by omega⟩)
    · omega
  · omega

/-- Two valid times of day at most 60 seconds apart: the same minute, the next minute
of the same hour, or the first minute of the next hour. -/
theorem day_window (h0 m0 s0 h1 m1 s1 e : Nat) (hm0 : m0 < 60) (hs0 : s0 < 60)
    (hm1 : m1 < 60) (hs1 : s1 < 60) (he : e ≤ 60)
    (hT : h1 * 3600 + m1 * 60 + s1 = h0 * 3600 + m0 * 60 + s0 + e) :
    (h1 = h0 ∧ m1 = m0 ∧ s1 = s0 + e) ∨
    (h1 = h0 ∧ m1 = m0 + 1 ∧ s1 + 60 = s0 + e) ∨
    (h1 = h0 + 1 ∧ m1 = 0 ∧ m0 = 59 ∧ s1 + 60 = s0 + e) := by
  rcases Nat.lt_trichotomy h0 h1 with h | h | h
  · have h2 : h1 = h0 + 1 := by omega
    subst h2
    right; right
    omega
  · subst h
    rcases Nat.lt_trichotomy m0 m1 with g | g | g
    · have g2 : m1 = m0 + 1 := by omega
      subst g2
      right; left
      omega
    · subst g
      left
      omega
    · omega
  · omega

/-- C16, as stated, fails: from 00:00:59 to 00:01:00 one second passes, the two
snapshots are valid and in order, and with `seconds = 2` the second assertion holds
(the low six bits of the difference are 5). -/
theorem sleep_floor_counterexample :
    sleep_later (make_ts_pack 0 0 59) (make_ts_pack 0 1 0) = true ∧
    sleep_floor 2 (make_ts_pack 0 0 59) (make_ts_pack 0 1 0) = true ∧
    sub64 (make_ts_pack 0 1 0) (make_ts_pack 0 0 59) &&& 0x3f = 5 ∧
    day_seconds 0 1 0 = day_seconds 0 0 59 + 1 ∧
    (1 : Nat) < 2 :=
  ⟨by decide, by decide, by decide, by decide, by decide⟩

/-- C16, amended: for valid time-of-day snapshots on the same day, in order, whose
seconds field does not go down from the first to the second (as when both are in the
same minute), if the second assertion holds then at least `seconds` seconds lie between
the two; without the condition on the seconds field, at least `seconds - 4` do. -/
theorem sleep_floor_same_minute (h0 m0 s0 h1 m1 s1 seconds : Nat)
    (hh0 : h0 < 24) (hm0 : m0 < 60) (hs0 : s0 < 60)
    (hh1 : h1 < 24) (hm1 : m1 < 60) (hs1 : s1 < 60) (hsec : seconds < 2 ^ 31)
    (hlater : sleep_later (make_ts_pack h0 m0 s0) (make_ts_pack h1 m1 s1) = true)
    (hfloor : sleep_floor (seconds : Int) (make_ts_pack h0 m0 s0) (make_ts_pack h1 m1 s1)
      = true) :
    (s0 ≤ s1 → day_seconds h0 m0 s0 + seconds ≤ day_seconds h1 m1 s1) ∧
    day_seconds h0 m0 s0 + seconds ≤ day_seconds h1 m1 s1 + 4 := by
  obtain ⟨e0, l0⟩ := make_ts_pack_valid h0 m0 s0 hh0 hm0 hs0
  obtain ⟨e1, l1⟩ := make_ts_pack_valid h1 m1 s1 hh1 hm1 hs1
  have hlt : make_ts_pack h0 m0 s0 < make_ts_pack h1 m1 s1 := by
    simpa [sleep_later] using hlater
  rw [sleep_floor_eq seconds _ _ (by omega) (Nat.le_of_lt hlt) l1] at hfloor
  simp only [decide_eq_true_eq] at hfloor
  rw [e0, e1] at hlt hfloor
  unfold day_seconds
  rcases pack_lt_cases h0 m0 s0 h1 m1 s1 hm0 hs0 hm1 hs1 hlt with h | ⟨h, g⟩ | ⟨h, g, k⟩
  · have h2 : ∃ d, h1 = h0 + 1 + d := ⟨h1 - h0 - 1, by omega⟩
    obtain ⟨d, rfl⟩ := h2
    constructor
    · intro hs; omega
    · omega
  · subst h
    have g2 : ∃ d, m1 = m0 + 1 + d := ⟨m1 - m0 - 1, by omega⟩
    obtain ⟨d, rfl⟩ := g2
    constructor
    · intro hs; omega
    · omega
  · subst h
    subst g
    constructor
    · intro hs; omega
    · omega

/-- Witness of C16 (amended): from 09:42:23 to 09:42:26 with `seconds = 2`. -/
theorem sleep_floor_same_minute_witness :
    sleep_later (make_ts_pack 9 42 23) (make_ts_pack 9 42 26) = true ∧
    sleep_floor ((2 : Nat) : Int) (make_ts_pack 9 42 23) (make_ts_pack 9 42 26) = true ∧
    ((23 ≤ 26 → day_seconds 9 42 23 + 2 ≤ day_seconds 9 42 26) ∧
      day_seconds 9 42 23 + 2 ≤ day_seconds 9 42 26 + 4) :=
  ⟨by decide, by decide,
    sleep_floor_same_minute 9 42 23 9 42 26 2 (by decide) (by decide) (by decide) (by decide)
      (by decide) (by decide) (by decide) (by decide) (by decide)⟩

/-- C20: for valid time-of-day snapshots on the same day and a wait of 1 to 59 seconds,
if the second snapshot is between `seconds` and 59 seconds after the first, both
assertions of the guard hold, across a minute or hour boundary as well; if it is exactly
60 seconds after, the second assertion fails for every `seconds` from 1 up. -/
theorem sleep_asserts_window (h0 m0 s0 h1 m1 s1 seconds : Nat)
    (hh0 : h0 < 24) (hm0 : m0 < 60) (hs0 : s0 < 60)
    (hh1 : h1 < 24) (hm1 : m1 < 60) (hs1 : s1 < 60)
    (hsec1 : 1 ≤ seconds) (hsec2 : seconds < 2 ^ 31) :
    (seconds ≤ 59 → day_seconds h0 m0 s0 + seconds ≤ day_seconds h1 m1 s1 →
      day_seconds h1 m1 s1 ≤ day_seconds h0 m0 s0 + 59 →
      sleep_later (make_ts_pack h0 m0 s0) (make_ts_pack h1 m1 s1) = true ∧
      sleep_floor (seconds : Int) (make_ts_pack h0 m0 s0) (make_ts_pack h1 m1 s1) = true) ∧
    (day_seconds h1 m1 s1 = day_seconds h0 m0 s0 + 60 →
      sleep_later (make_ts_pack h0 m0 s0) (make_ts_pack h1 m1 s1) = true ∧
      sleep_floor (seconds : Int) (make_ts_pack h0 m0 s0) (make_ts_pack h1 m1 s1) = false) := by
  obtain ⟨e0, l0⟩ := make_ts_pack_valid h0 m0 s0 hh0 hm0 hs0
  obtain ⟨e1, l1⟩ := make_ts_pack_valid h1 m1 s1 hh1 hm1 hs1
  unfold day_seconds
  constructor
  · intro h59 hlo hhi
    obtain ⟨e, he⟩ : ∃ e, h1 * 3600 + m1 * 60 + s1 = h0 * 3600 + m0 * 60 + s0 + e :=
      ⟨h1 * 3600 + m1 * 60 + s1 - (h0 * 3600 + m0 * 60 + s0), by omega⟩
    have he1 : seconds ≤ e := by omega
    have he2 : e ≤ 59 := by omega
    have hc := day_window h0 m0 s0 h1 m1 s1 e hm0 hs0 hm1 hs1 (by omega) he
    have hlt : make_ts_pack h0 m0 s0 < make_ts_pack h1 m1 s1 := by
      rw [e0, e1]
      rcases hc with ⟨a, b, c⟩ | ⟨a, b, c⟩ | ⟨a, b, b2, c⟩ <;> subst a <;> subst b <;> omega
    refine ⟨by simpa [sleep_later] using hlt, ?_⟩
    rw [sleep_floor_eq seconds _ _ (by omega) (Nat.le_of_lt hlt) l1, e0, e1]
    simp only [decide_eq_true_eq]
    rcases hc with ⟨a, b, c⟩ | ⟨a, b, c⟩ | ⟨a, b, b2, c⟩ <;> subst a <;> subst b <;> omega
  · intro h60
    have hc := day_window h0 m0 s0 h1 m1 s1 60 hm0 hs0 hm1 hs1 (Nat.le_refl _) h60
    have hlt : make_ts_pack h0 m0 s0 < make_ts_pack h1 m1 s1 := by
      rw [e0, e1]
      rcases hc with ⟨a, b, c⟩ | ⟨a, b, c⟩ | ⟨a, b, b2, c⟩ <;> subst a <;> subst b <;> omega
    refine ⟨by simpa [sleep_later] using hlt, ?_⟩
    rw [sleep_floor_eq seconds _ _ (by omega) (Nat.le_of_lt hlt) l1, e0, e1]
    simp only [decide_eq_false_iff_not]
    rcases hc with ⟨a, b, c⟩ | ⟨a, b, c⟩ | ⟨a, b, b2, c⟩ <;> subst a <;> subst b <;> omega

/-- Witness of C20: with `seconds = 2`, from 09:59:58 to 10:00:01 (3 seconds, across an
hour boundary) both assertions hold. -/
theorem sleep_asserts_window_witness :
    day_seconds 9 59 58 + 2 ≤ day_seconds 10 0 1 ∧
    day_seconds 10 0 1 ≤ day_seconds 9 59 58 + 59 ∧
    sleep_later (make_ts_pack 9 59 58) (make_ts_pack 10 0 1) = true ∧
    sleep_floor ((2 : Nat) : Int) (make_ts_pack 9 59 58) (make_ts_pack 10 0 1) = true :=
  have h1 : day_seconds 9 59 58 + 2 ≤ day_seconds 10 0 1 := by decide
  have h2 : day_seconds 10 0 1 ≤ day_seconds 9 59 58 + 59 := by decide
  ⟨h1, h2,
    (sleep_asserts_window 9 59 58 10 0 1 2 (by decide) (by decide) (by decide) (by decide)
      (by decide) (by decide) (by decide) (by decide)).1 (by decide) h1 h2⟩

/-! ## The last slot -/

/-- C17: `cmp_regs` scans ids 0 to 1022 only: two states with the same clock settings
whose tables agree at every id other than 1023 get the same verdict and the same text
appended to the diagnostic stream, whatever name and values the slot 1023 holds; so a
named, mismatching register at id 1023 is not detected. -/
theorem cmp_regs_ignores_last_slot (s1 s2 : State)
    (hf : s1.tb_freq = s2.tb_freq) (hd : s1.delay = s2.delay)
    (hE : ∀ i, i ≠ 1023 → s1.default_sprs i = s2.default_sprs i)
    (hO : ∀ i, i ≠ 1023 → s1.saved_sprs i = s2.saved_sprs i) :
    (cmp_regs s1).1 = (cmp_regs s2).1 ∧
    ∃ l, (cmp_regs s1).2.out = s1.out ++ l ∧ (cmp_regs s2).2.out = s2.out ++ l := by
  have hl : cmp_regs_loop s1 1023 0 [] = cmp_regs_loop s2 1023 0 [] :=
    cmp_regs_loop_congr s1 s2 hf hd 1023 0 []
      (fun j _ hj => by rw [hE j (by omega)])
      (fun j _ hj _ => by rw [hE j (by omega), hO j (by omega)]; exact ⟨rfl, rfl⟩)
  have h1 := cmp_regs_loop_acc s1 1023 0 (s1.out ++ [Out.puts "Checking SPRs"])
  have h2 := cmp_regs_loop_acc s2 1023 0 (s2.out ++ [Out.puts "Checking SPRs"])
  simp only [cmp_regs, h1, h2, hl]
  split
  · exact ⟨rfl, [Out.puts "Checking SPRs"] ++ (cmp_regs_loop s2 1023 0 []).2
      ++ [Out.puts "OK\n"], by simp, by simp⟩
  · exact ⟨rfl, [Out.puts "Checking SPRs"] ++ (cmp_regs_loop s2 1023 0 []).2,
      by simp, by simp⟩

set_option maxRecDepth 100000 in
/-- Witness of C17: a named register at id 1023 whose values differ, against tables
with nothing at id 1023 but unnamed values: the verdict is 0 for both. -/
theorem cmp_regs_ignores_last_slot_witness :
    (ex_last_slot.default_sprs 1023).name = some "top" ∧
    spr_equal ex_last_slot 1023 = false ∧
    (cmp_regs ex_last_slot_unnamed).1 = 0 ∧
    (cmp_regs ex_last_slot).1 = (cmp_regs ex_last_slot_unnamed).1 ∧
    ∃ l, (cmp_regs ex_last_slot).2.out = ex_last_slot.out ++ l ∧
      (cmp_regs ex_last_slot_unnamed).2.out = ex_last_slot_unnamed.out ++ l :=
  have h := cmp_regs_ignores_last_slot ex_last_slot ex_last_slot_unnamed rfl rfl
    (fun i hi => by
      simp only [ex_last_slot, ex_last_slot_unnamed, state_of, table_of, List.lookup]
      have : (i == 1023) = false := by simpa using hi
      simp [this])
    (fun i hi => by
      simp only [ex_last_slot, ex_last_slot_unnamed, state_of, table_of, List.lookup]
      have : (i == 1023) = false := by simpa using hi
      simp [this])
  ⟨by decide, by decide, by decide, h.1, h.2⟩

/-- What the loop of `regs_init` leaves: `n` entries of `saved_sprs` from id `i` on have
the name of the entry of `default_sprs` and their own value, the others are as they
were, and nothing else has changed. -/
theorem regs_init_loop_spec :
    ∀ (n i : Nat) (s : State),
      (∀ j, (regs_init_loop s n i).saved_sprs j =
        if i ≤ j ∧ j < i + n then
          { name := (s.default_sprs j).name, dval := (s.saved_sprs j).dval }
        else s.saved_sprs j) ∧
      (regs_init_loop s n i).default_sprs = s.default_sprs ∧
      (regs_init_loop s n i).tb_freq = s.tb_freq ∧
      (regs_init_loop s n i).delay = s.delay ∧
      (regs_init_loop s n i).rtas_argbuf = s.rtas_argbuf ∧
      (regs_init_loop s n i).out = s.out ∧
      (regs_init_loop s n i).calls = s.calls := by
  intro n
  induction n with
  | zero =>
    intro i s
    refine ⟨fun j => ?_, rfl, rfl, rfl, rfl, rfl, rfl⟩
    rw [if_neg (by omega)]
    rfl
  | succ n ih =>
    intro i s
    have hstep : regs_init_loop s (n + 1) i
        = regs_init_loop { s with saved_sprs := (Function.update s.saved_sprs i
            (one_spr.mk (s.default_sprs i).name (s.saved_sprs i).dval)) } n (i + 1) := rfl
    rw [hstep]
    obtain ⟨h1, h2, h3, h4, h5, h6, h7⟩ := ih (i + 1)
      { s with saved_sprs := (Function.update s.saved_sprs i
          (one_spr.mk (s.default_sprs i).name (s.saved_sprs i).dval)) }
    refine ⟨fun j => ?_, h2, h3, h4, h5, h6, h7⟩
    rw [h1 j]
    by_cases hj : j = i
    · subst hj
      rw [if_neg (by omega), if_pos (by omega)]
      simp
    · by_cases hr : i + 1 ≤ j ∧ j < i + 1 + n
      · rw [if_pos hr, if_pos (by omega)]
        simp [Function.update_noteq hj]
      · rw [if_neg hr, if_neg (by omega)]
        simp [Function.update_noteq hj]

/-- C18, as stated, fails: with the last slot, id 1023, named in `default_sprs` and
`saved_sprs` as the loader leaves it, the entry 1023 of `saved_sprs` has no name after
`regs_init`. -/
theorem regs_init_names_counterexample :
    (ex_top_named.default_sprs 1023).name = some "top" ∧
    ((regs_init ex_top_named).saved_sprs 1023).name = none := by
  refine ⟨by decide, ?_⟩
  have h := (regs_init_loop_spec 1023 0 ex_top_named).1 1023
  rw [if_neg (by omega)] at h
  unfold regs_init
  rw [h]
  rfl

/-- C18, amended: after `regs_init`, for every id of the range 0..1022 the entry of
`saved_sprs` has the name of the entry of `default_sprs` at the same id (so it has a
name whenever that one has); the entry 1023 is as it was; no value and no entry of
`default_sprs` has changed. -/
theorem regs_init_names (s : State) :
    (∀ i, i < 1023 → ((regs_init s).saved_sprs i).name = (s.default_sprs i).name) ∧
    (∀ i, i < 1023 → (s.default_sprs i).name ≠ none →
      ((regs_init s).saved_sprs i).name = ((regs_init s).default_sprs i).name) ∧
    (regs_init s).saved_sprs 1023 = s.saved_sprs 1023 ∧
    (∀ i, ((regs_init s).saved_sprs i).dval = (s.saved_sprs i).dval) ∧
    (regs_init s).default_sprs = s.default_sprs := by
  obtain ⟨h1, h2, _⟩ := regs_init_loop_spec 1023 0 s
  have hname : ∀ i, i < 1023 →
      ((regs_init s).saved_sprs i).name = (s.default_sprs i).name := by
    intro i hi
    unfold regs_init
    rw [h1 i, if_pos (by omega)]
  refine ⟨hname, ?_, ?_, ?_, ?_⟩
  · intro i hi _
    rw [hname i hi]
    unfold regs_init
    rw [h2]
  · unfold regs_init
    rw [h1 1023, if_neg (by omega)]
  · intro i
    unfold regs_init
    rw [h1 i]
    split <;> rfl
  · unfold regs_init
    exact h2

/-! ## Driver: every run -/

/-- The function `main` is its loop followed by the choice of the status. -/
theorem main_eq (w : World) (passes fuel : Nat) (s : State) :
    main w passes fuel s =
      (main_loop w fuel passes 100 (main_prologue s)).bind fun r =>
        .ret (0, main_status w r.2 r.1) := rfl

theorem main_status_zero (w : World) (s : State) :
    main_status w 0 s = rtas_load_retval w.str_PASS s := rfl

theorem main_status_pos (w : World) (iter : Nat) (s : State) (h : iter ≠ 0) :
    main_status w iter s = rtas_load_retval w.str_FAIL s := by
  unfold main_status
  rw [if_pos h]

/-- C19: whenever `main` returns (so every wait of the guard came back), it returns 0
and one of two things happened: 100 passes in a row compared equal, the loop was left
with `iter = 0` and the status loaded is "PASS"; or after `k < 100` equal passes one
pass did not compare equal, the loop was left at once with `iter = 100 - k`, not 0,
and the status loaded is "FAIL".  So at most 100 passes are made.  Both ways do return
when the model is given enough passes to follow. -/
theorem driver_runs (w : World) (fuel passes : Nat) (s : State) :
    (∀ r, main w passes fuel s = .ret r →
      r.1 = 0 ∧
      ∃ s1 iter, main_loop w fuel passes 100 (main_prologue s) = .ret (s1, iter) ∧
        r.2 = main_status w iter s1 ∧ s1.n_init ≤ s.n_init + 100 ∧
        ((iter = 0 ∧ EqualPasses w fuel 100 (main_prologue s) s1 ∧
            r.2 = rtas_load_retval w.str_PASS s1 ∧ s1.n_init = s.n_init + 100) ∨
         (iter ≠ 0 ∧ ∃ k sk v, k < 100 ∧ EqualPasses w fuel k (main_prologue s) sk ∧
            one_pass w fuel sk = .ret (v, s1) ∧ v ≠ 0 ∧ iter = 100 - k ∧
            r.2 = rtas_load_retval w.str_FAIL s1 ∧ s1.n_init = s.n_init + k + 1))) ∧
    (∀ s1, EqualPasses w fuel 100 (main_prologue s) s1 → 100 ≤ passes →
      main w passes fuel s = .ret (0, rtas_load_retval w.str_PASS s1)) ∧
    (∀ k sk v s1, k < 100 → EqualPasses w fuel k (main_prologue s) sk →
      one_pass w fuel sk = .ret (v, s1) → v ≠ 0 → k < passes →
      main w passes fuel s = .ret (0, rtas_load_retval w.str_FAIL s1)) := by
  have h100 : (100 : Nat) < U64 := by decide
  refine ⟨?_, ?_, ?_⟩
  · intro r hr
    rw [main_eq] at hr
    obtain ⟨⟨s1, it⟩, hl, hr⟩ := (Outcome.bind_eq_ret _ _ _).1 hr
    injection hr with hr
    subst hr
    refine ⟨rfl, s1, it, hl, rfl, ?_⟩
    rcases main_loop_ret w fuel passes 100 (main_prologue s) s1 it hl (by decide) h100 with
      ⟨h0, he⟩ | ⟨k, sk, v, hk, he, hp, hv, hit⟩
    · have hn := (equal_passes_counts w fuel he).1
      rw [main_prologue_n_init] at hn
      subst h0
      exact ⟨by omega, Or.inl ⟨rfl, he, main_status_zero w s1, hn⟩⟩
    · have hn := (equal_passes_counts w fuel he).1
      rw [main_prologue_n_init] at hn
      have hn2 := (one_pass_counts w fuel _ _ _ hp).1
      have hne : it ≠ 0 := by omega
      exact ⟨by omega, Or.inr ⟨hne, k, sk, v, hk, he, hp, hv, hit,
        main_status_pos w it s1 hne, by omega⟩⟩
  · intro s1 he hp
    rw [main_eq, main_loop_all_equal w fuel he passes (by decide) h100 hp, Outcome.ret_bind]
    rfl
  · intro k sk v s1 hk he hp hv hpk
    rw [main_eq, main_loop_mismatch_after w fuel he passes 100 v s1 hp hv hk h100 hpk,
      Outcome.ret_bind]
    show Outcome.ret (0, main_status w (100 - k) s1) = _
    rw [main_status_pos w (100 - k) s1 (by omega)]

set_option maxRecDepth 100000 in
/-- Witness of C19: on a platform whose first capture compares equal and whose second
one mismatches, `main` returns, and it has left its loop after at most 100 passes. -/
theorem driver_runs_witness :
    ∃ s1, main ex_world_then_bad 100 1 State.boot = .ret (0, s1) ∧
      ∃ s2 iter, main_loop ex_world_then_bad 1 100 100 (main_prologue State.boot)
          = .ret (s2, iter) ∧
        s1 = main_status ex_world_then_bad iter s2 ∧ s2.n_init ≤ State.boot.n_init + 100 := by
  obtain ⟨s1, h⟩ := Outcome.ret_of_verdict (main ex_world_then_bad 100 1 State.boot) 0
    (by decide)
  obtain ⟨_, s2, iter, hl, hs, hn, _⟩ :=
    (driver_runs ex_world_then_bad 1 100 State.boot).1 (0, s1) h
  exact ⟨s1, h, s2, iter, hl, hs, hn⟩

/-! ## Driver: the way out of `main` -/

theorem rtas_call_no_term (w : World) (hw : term_halts w) (s s1 : State)
    (h : rtas_call w s = .ret s1) (hs : no_term_call s) : no_term_call s1 := by
  unfold rtas_call at h
  cases hc : w.rtas_call s.calls.length s.rtas_argbuf with
  | none => rw [hc] at h; exact Outcome.noConfusion h
  | some b =>
    rw [hc] at h
    injection h with h
    subst h
    intro x hx
    rcases List.mem_append.1 hx with hx | hx
    · exact hs x hx
    · rw [List.mem_singleton.1 hx]
      intro ht
      rw [hw _ _ ht] at hc
      exact Option.noConfusion hc

theorem assert_no_term (w : World) (hw : term_halts w) (c : Bool) (s s1 : State)
    (h : assert w c s = .ret s1) (hs : no_term_call s) : no_term_call s1 := by
  unfold assert at h
  cases c with
  | true =>
    simp only [if_true] at h
    injection h with h
    subst h
    exact hs
  | false =>
    simp only [Bool.false_eq_true, if_false] at h
    exact rtas_call_no_term w hw _ s1 h hs

theorem make_ts_no_term (w : World) (hw : term_halts w) (s s1 : State) (ts : Nat)
    (h : make_ts w s = .ret (ts, s1)) (hs : no_term_call s) : no_term_call s1 := by
  unfold make_ts at h
  obtain ⟨s2, h2, h3⟩ := (Outcome.bind_eq_ret _ _ _).1 h
  have hn := rtas_call_no_term w hw _ s2 h2 hs
  cases hd : make_ts_decode s2.rtas_argbuf with
  | none => rw [hd] at h3; exact Outcome.noConfusion h3
  | some t =>
    rw [hd] at h3
    injection h3 with h3
    injection h3 with _ h4
    subst h4
    exact hn

theorem sleep_no_term (w : World) (hw : term_halts w) (fuel : Nat) (seconds : Int)
    (s s1 : State) (h : sleep w fuel seconds s = .ret s1) (hs : no_term_call s) :
    no_term_call s1 := by
  rw [sleep_asserts] at h
  obtain ⟨⟨ts0, sa⟩, ha, h⟩ := (Outcome.bind_eq_ret _ _ _).1 h
  have ra := make_ts_no_term w hw s sa ts0 ha hs
  simp only at h
  split at h
  · exact Outcome.noConfusion h
  · obtain ⟨⟨ts1, sb⟩, hb, h⟩ := (Outcome.bind_eq_ret _ _ _).1 h
    have rb := make_ts_no_term w hw _ sb ts1 hb ra
    obtain ⟨sc, hc, h⟩ := (Outcome.bind_eq_ret _ _ _).1 h
    have rc := assert_no_term w hw _ sb sc hc rb
    exact assert_no_term w hw _ sc s1 h rc

theorem cmp_regs_calls (s : State) : (cmp_regs s).2.calls = s.calls := by
  unfold cmp_regs
  simp only
  split <;> rfl

theorem one_pass_no_term (w : World) (hw : term_halts w) (fuel : Nat) (s s1 : State)
    (v : Nat) (h : one_pass w fuel s = .ret (v, s1)) (hs : no_term_call s) :
    no_term_call s1 := by
  unfold one_pass at h
  obtain ⟨sa, ha, h⟩ := (Outcome.bind_eq_ret _ _ _).1 h
  unfold main_pass at ha
  obtain ⟨sb, hb, ha⟩ := (Outcome.bind_eq_ret _ _ _).1 ha
  have rb := sleep_no_term w hw fuel _ _ sb hb hs
  injection ha with ha
  injection h with h
  have hc := cmp_regs_calls sa
  rw [h] at hc
  subst ha
  intro x hx
  have hx2 : x ∈ s1.calls := hx
  rw [hc] at hx2
  exact rb x hx2

theorem equal_passes_no_term (w : World) (hw : term_halts w) (fuel : Nat) {k : Nat}
    {s s1 : State} (h : EqualPasses w fuel k s s1) (hs : no_term_call s) :
    no_term_call s1 := by
  induction h with
  | zero s => exact hs
  | succ h1 _ ih => exact ih (one_pass_no_term w hw fuel _ _ _ h1 hs)

theorem main_prologue_calls (s : State) : (main_prologue s).calls = s.calls := by
  unfold main_prologue regs_init
  simp only []
  exact (regs_init_loop_spec 1023 0 _).2.2.2.2.2.2

set_option maxRecDepth 100000 in
/-- C14, as stated, fails: on a platform where every capture mismatches, `main`
returns normally, with value 0; the platform calls it has issued are the two
time-of-day calls of the guard, and the terminate request is in the call buffer but
has not been issued. -/
theorem main_returns_counterexample :
    (main ex_world_bad 100 1 State.boot).val?.map
        (fun r => (r.1, r.2.calls.map (fun b => b.token), r.2.rtas_argbuf.token))
      = some (0, [bswap32 RTAS_GET_TIME_OF_DAY, bswap32 RTAS_GET_TIME_OF_DAY],
          bswap32 RTAS_OS_TERM) ∧
    bswap32 RTAS_GET_TIME_OF_DAY ≠ bswap32 RTAS_OS_TERM :=
  ⟨by decide, by decide⟩

/-- The body of the loop of `main` around its call of the guard. -/
theorem main_pass_eq (w : World) (fuel : Nat) (s : State) :
    main_pass w fuel s =
      (sleep w fuel (int_of_u64 (before_sleep w s).delay) (before_sleep w s)).bind fun s1 =>
        .ret { s1 with saved_sprs := w.save_sprs s1.n_save s1.saved_sprs,
                       n_save := s1.n_save + 1 } := rfl

/-- A pass in which the guard returns comes back with a verdict. -/
theorem one_pass_of_sleep (w : World) (fuel : Nat) (s sb : State)
    (h : sleep w fuel (int_of_u64 (before_sleep w s).delay) (before_sleep w s) = .ret sb) :
    ∃ r, one_pass w fuel s = .ret r := by
  unfold one_pass
  rw [main_pass_eq, h]
  exact ⟨_, rfl⟩

/-- The loop of `main` is left when every pass it reaches comes back. -/
theorem main_loop_total (w : World) (fuel : Nat) :
    ∀ (passes iter : Nat) (s : State), 1 ≤ iter → iter < U64 → iter ≤ passes →
      (∀ k sk, k < iter → EqualPasses w fuel k s sk → ∃ r, one_pass w fuel sk = .ret r) →
      ∃ s1 iter1, main_loop w fuel passes iter s = .ret (s1, iter1) := by
  intro passes
  induction passes with
  | zero => intro iter s h1 _ h3; omega
  | succ p ih =>
    intro iter s h1 h2 h3 hg
    obtain ⟨⟨v, sa⟩, hr⟩ := hg 0 s (by omega) (EqualPasses.zero s)
    by_cases hv : v = 0
    · subst hv
      rw [main_loop_equal w fuel p iter s sa hr h1 h2]
      by_cases hi : iter - 1 ≠ 0
      · rw [if_pos hi]
        have hlt : iter - 1 < U64 := Nat.lt_of_le_of_lt (Nat.sub_le _ _) h2
        exact ih (iter - 1) sa (by omega) hlt (by omega)
          (fun k sk hk he => hg (k + 1) sk (by omega) (EqualPasses.succ hr he))
      · rw [if_neg hi]
        exact ⟨_, _, rfl⟩
    · rw [main_loop_unequal w fuel p iter v s sa hr hv]
      exact ⟨_, _, rfl⟩

/-- C14, amended: on every execution of `main` in which the guard returns each time it
is called (in each pass the loop reaches, that is after `k < 100` equal passes), `main`
leaves its loop and returns normally, with value 0, once the model is given the 100
passes the loop can make; before it returns it loads the terminate request (token
`RTAS_OS_TERM`, one argument, the address of "PASS" when the budget is used up and of
"FAIL" otherwise) into the call buffer; it does not issue that request: the log of
platform calls is the one the loop left, and when terminate calls do not come back no
terminate call is in it. -/
theorem main_returns (w : World) (passes fuel : Nat) (s : State)
    (hp : 100 ≤ passes)
    (hg : ∀ k sk, k < 100 → EqualPasses w fuel k (main_prologue s) sk →
      ∃ sb, sleep w fuel (int_of_u64 (before_sleep w sk).delay) (before_sleep w sk)
        = .ret sb) :
    ∃ s1 iter, main_loop w fuel passes 100 (main_prologue s) = .ret (s1, iter) ∧
      main w passes fuel s = .ret (0, main_status w iter s1) ∧
      (main_status w iter s1).rtas_argbuf.token = bswap32 RTAS_OS_TERM ∧
      (main_status w iter s1).rtas_argbuf.nargs = bswap32 1 ∧
      (main_status w iter s1).rtas_argbuf.args 0
        = bswap32 ((if iter = 0 then w.str_PASS else w.str_FAIL) % 2 ^ 32) ∧
      (main_status w iter s1).calls = s1.calls ∧
      (term_halts w → no_term_call s → no_term_call (main_status w iter s1)) := by
  obtain ⟨s1, it, hl⟩ := main_loop_total w fuel passes 100 (main_prologue s) (by decide)
    (by decide) hp (fun k sk hk he => by
      obtain ⟨sb, hsb⟩ := hg k sk hk he
      exact one_pass_of_sleep w fuel sk sb hsb)
  have harg : ∀ a, (rtas_load_retval a s1).rtas_argbuf.args 0 = bswap32 (a % 2 ^ 32) := by
    intro a
    simp [rtas_load_retval, U32]
  have hst : main_status w it s1
      = rtas_load_retval (if it = 0 then w.str_PASS else w.str_FAIL) s1 := by
    by_cases hi : it = 0
    · subst hi; rw [if_pos rfl]; exact main_status_zero w s1
    · rw [if_neg hi]; exact main_status_pos w it s1 hi
  have hcalls : (main_status w it s1).calls = s1.calls := by rw [hst]; rfl
  refine ⟨s1, it, hl, ?_, ?_, ?_, ?_, hcalls, ?_⟩
  · rw [main_eq, hl, Outcome.ret_bind]
  · rw [hst]; rfl
  · rw [hst]; rfl
  · rw [hst]; exact harg _
  · intro hw hs
    have hs0 : no_term_call (main_prologue s) := by
      intro x hx
      rw [main_prologue_calls] at hx
      exact hs x hx
    have hs1 : no_term_call s1 := by
      rcases main_loop_ret w fuel passes 100 (main_prologue s) s1 it hl (by decide)
          (by decide) with ⟨_, he⟩ | ⟨k, sk, v, _, he, hp, _, _⟩
      · exact equal_passes_no_term w hw fuel he hs0
      · exact one_pass_no_term w hw fuel sk s1 v hp (equal_passes_no_term w hw fuel he hs0)
    intro x hx
    have hx2 : x ∈ (main_status w it s1).calls := hx
    rw [hcalls] at hx2
    exact hs1 x hx2

/-- The platforms `world_of` never come back from a terminate call. -/
theorem world_of_term_halts (t0 : Nat) (capture : Nat → Nat → one_spr) :
    term_halts (world_of t0 capture) := by
  intro k b hb
  simp [world_of, hb]

theorem regs_init_loop_reads (s : State) :
    ∀ (n i : Nat), (regs_init_loop s n i).n_tbl = s.n_tbl ∧
      (regs_init_loop s n i).n_vtb = s.n_vtb := by
  intro n
  induction n generalizing s with
  | zero => intro i; exact ⟨rfl, rfl⟩
  | succ n ih => intro i; rw [regs_init_loop]; exact ih _ (i + 1)

/-- The state `main` enters its loop with. -/
theorem main_prologue_inv : pass_inv 0 (main_prologue State.boot) := by
  have h := regs_init_loop_spec 1023 0 (rtas_init (tb_init State.boot))
  have hr := regs_init_loop_reads (rtas_init (tb_init State.boot)) 1023 0
  obtain ⟨_, h2, h3, _, h5, _, h7⟩ := h
  unfold pass_inv main_prologue regs_init
  simp only []
  refine ⟨h3, trivial, ?_, ?_, hr.1, hr.2, h2⟩
  · rw [h5]; rfl
  · rw [h7]; rfl

/-- The time of day decoded from an answer `tod_reply t`. -/
theorem make_ts_decode_tod_reply (t : Nat) (b : rtas) (hb : b.rets = RetPtr.args) :
    make_ts_decode (tod_reply t b)
      = some (make_ts_pack (t / 3600 % 24) (t / 60 % 60) (t % 60)) := by
  have h4 : bswap32 (bswap32 (t / 3600 % 24)) = t / 3600 % 24 :=
    bswap32_bswap32 _ (by omega)
  have h5 : bswap32 (bswap32 (t / 60 % 60)) = t / 60 % 60 :=
    bswap32_bswap32 _ (by omega)
  have h6 : bswap32 (bswap32 (t % 60)) = t % 60 :=
    bswap32_bswap32 _ (by omega)
  have hb1 : (tod_reply t b).rets = RetPtr.args := hb
  have e4 : (tod_reply t b).args 4 = bswap32 (t / 3600 % 24) := rfl
  have e5 : (tod_reply t b).args 5 = bswap32 (t / 60 % 60) := rfl
  have e6 : (tod_reply t b).args 6 = bswap32 (t % 60) := rfl
  simp only [make_ts_decode, make_ts_fields, rets_read, hb1, e4, e5, e6, h4, h5, h6,
    Option.map_some']

/-- The function `make_ts` on a platform `world_of`: the call comes back with the time
of day of its number. -/
theorem world_of_make_ts (t0 : Nat) (capture : Nat → Nat → one_spr) (s : State)
    (hr : s.rtas_argbuf.rets = RetPtr.args) :
    ∃ s1, make_ts (world_of t0 capture) s
        = .ret (make_ts_pack ((t0 + 3 * s.calls.length) / 3600 % 24)
            ((t0 + 3 * s.calls.length) / 60 % 60) ((t0 + 3 * s.calls.length) % 60), s1) ∧
      s1.rtas_argbuf.rets = RetPtr.args ∧ s1.calls.length = s.calls.length + 1 ∧
      s1.tb_freq = s.tb_freq ∧ s1.delay = s.delay ∧ s1.n_tbl = s.n_tbl ∧
      s1.n_vtb = s.n_vtb ∧ s1.default_sprs = s.default_sprs := by
  have hne : bswap32 RTAS_GET_TIME_OF_DAY ≠ bswap32 RTAS_OS_TERM := by decide
  have hcall : (world_of t0 capture).rtas_call s.calls.length (make_ts_request s).rtas_argbuf
      = some (tod_reply (t0 + 3 * s.calls.length) (make_ts_request s).rtas_argbuf) := by
    exact @if_neg _ _ hne _ none _
  have hr1 : (make_ts_request s).rtas_argbuf.rets = RetPtr.args := hr
  rw [make_ts_of_reply _ s _ hcall, make_ts_decode_tod_reply _ _ hr1]
  exact ⟨_, rfl, hr, by simp, rfl, rfl, rfl, rfl, rfl⟩

/-- The spin on a platform `world_of`, entered after `n` reads of each counter: with
the counters 2^31 ticks further at each read, the first iteration ends it. -/
theorem world_of_spin (t0 : Nat) (capture : Nat → Nat → one_spr) (n : Nat) (hn : n < 2 ^ 32) :
    spin (world_of t0 capture).mfspr_TBL (world_of t0 capture).mfspr_VTB
        ((world_of t0 capture).mfspr_TBL n % U64) ((world_of t0 capture).mfspr_VTB n % U64)
        1024000000 1 (n + 1) (n + 1)
      = some [(((n + 1) * 2 ^ 31) % U64, some (((n + 1) * 2 ^ 31 + 5) % U64))] := by
  have h1 : ¬ sub64 (((n + 1) * 2 ^ 31) % U64) ((n * 2 ^ 31) % U64) < 1024000000 := by
    unfold sub64 U64
    norm_num at hn ⊢
    omega
  have h2 : ¬ sub64 (((n + 1) * 2 ^ 31 + 5) % U64) ((n * 2 ^ 31 + 5) % U64) < 1024000000 := by
    unfold sub64 U64
    norm_num at hn ⊢
    omega
  show spin (fun k => k * 2 ^ 31) (fun k => k * 2 ^ 31 + 5) ((n * 2 ^ 31) % U64)
    ((n * 2 ^ 31 + 5) % U64) 1024000000 1 (n + 1) (n + 1) = _
  rw [spin]
  simp only []
  rw [if_neg h1, if_neg h2]

set_option maxRecDepth 100000 in
/-- The two assertions of the guard hold for the time-of-day answers of the two calls
of each of the first 100 passes on a platform `world_of 0 capture`. -/
theorem world_of_pass_times :
    ∀ j : Fin 100,
      sleep_later
        (make_ts_pack ((0 + 3 * (2 * j.val)) / 3600 % 24) ((0 + 3 * (2 * j.val)) / 60 % 60)
          ((0 + 3 * (2 * j.val)) % 60))
        (make_ts_pack ((0 + 3 * (2 * j.val + 1)) / 3600 % 24)
          ((0 + 3 * (2 * j.val + 1)) / 60 % 60) ((0 + 3 * (2 * j.val + 1)) % 60)) = true ∧
      sleep_floor (int_of_u64 2)
        (make_ts_pack ((0 + 3 * (2 * j.val)) / 3600 % 24) ((0 + 3 * (2 * j.val)) / 60 % 60)
          ((0 + 3 * (2 * j.val)) % 60))
        (make_ts_pack ((0 + 3 * (2 * j.val + 1)) / 3600 % 24)
          ((0 + 3 * (2 * j.val + 1)) / 60 % 60) ((0 + 3 * (2 * j.val + 1)) % 60)) = true := by
  decide



/-- The guard returns when its two time-of-day calls come back, the spin ends and the
two assertions hold. -/
theorem sleep_ret_of (w : World) (fuel : Nat) (seconds : Int) (s s1 s2 : State)
    (ts0 ts1 : Nat) (tr : List (Nat × Option Nat))
    (h0 : make_ts w s = .ret (ts0, s1))
    (hs : spin w.mfspr_TBL w.mfspr_VTB (w.mfspr_TBL s1.n_tbl % U64)
        (w.mfspr_VTB s1.n_vtb % U64) ((s.tb_freq * u64_of_int seconds) % U64) fuel
        (s1.n_tbl + 1) (s1.n_vtb + 1) = some tr)
    (h1 : make_ts w { s1 with n_tbl := s1.n_tbl + 1 + tr.length,
                              n_vtb := s1.n_vtb + 1 + vtb_reads tr } = .ret (ts1, s2))
    (ha : sleep_later ts0 ts1 = true) (hb : sleep_floor seconds ts0 ts1 = true) :
    sleep w fuel seconds s = .ret s2 := by
  rw [sleep_asserts, h0, Outcome.ret_bind]
  simp only []
  rw [hs]
  simp only []
  rw [h1, Outcome.ret_bind]
  simp only []
  rw [ha, hb]
  rfl

/-- On a platform `world_of 0 capture` the guard returns in each of the first 100
passes, having made two platform calls and two reads of each counter. -/
theorem world_of_sleep (capture : Nat → Nat → one_spr) (j : Nat) (hj : j < 100) (s : State)
    (h : pass_inv j s) :
    ∃ sb, sleep (world_of 0 capture) 1 (int_of_u64 s.delay) s = .ret sb ∧
      pass_inv (j + 1) sb := by
  unfold pass_inv at h ⊢
  have hf := h.1
  have hd := h.2.1
  have hr := h.2.2.1
  have hc := h.2.2.2.1
  have ht := h.2.2.2.2.1
  have hv := h.2.2.2.2.2.1
  have hE := h.2.2.2.2.2.2
  clear h
  obtain ⟨s1, m1, r1, c1, f1, d1, t1, v1, e1⟩ := world_of_make_ts 0 capture s hr
  rw [hd]
  have hcount : (s.tb_freq * u64_of_int (int_of_u64 2)) % U64 = 1024000000 := by
    rw [hf]; decide
  have hs : spin (world_of 0 capture).mfspr_TBL (world_of 0 capture).mfspr_VTB
      ((world_of 0 capture).mfspr_TBL s1.n_tbl % U64)
      ((world_of 0 capture).mfspr_VTB s1.n_vtb % U64)
      ((s.tb_freq * u64_of_int (int_of_u64 2)) % U64) 1 (s1.n_tbl + 1) (s1.n_vtb + 1)
      = some [(((2 * j + 1) * 2 ^ 31) % U64, some (((2 * j + 1) * 2 ^ 31 + 5) % U64))] := by
    rw [hcount, t1, v1, ht, hv]
    exact world_of_spin 0 capture (2 * j) (by norm_num; omega)
  obtain ⟨s2, m2, r2, c2, f2, d2, t2, v2, e2⟩ := world_of_make_ts 0 capture
    { s1 with
      n_tbl := s1.n_tbl + 1
        + [(((2 * j + 1) * 2 ^ 31) % U64, some (((2 * j + 1) * 2 ^ 31 + 5) % U64))].length,
      n_vtb := s1.n_vtb + 1
        + vtb_reads [(((2 * j + 1) * 2 ^ 31) % U64, some (((2 * j + 1) * 2 ^ 31 + 5) % U64))] }
    r1
  simp only [] at m2 c2 f2 d2 t2 v2 e2
  rw [hc] at m1
  rw [c1, hc] at m2 c2
  obtain ⟨ha, hb⟩ := world_of_pass_times ⟨j, hj⟩
  simp only [] at ha hb
  refine ⟨s2, sleep_ret_of _ 1 _ s s1 s2 _ _ _ m1 hs m2 ha hb, ?_⟩
  refine ⟨by rw [f2, f1, hf], by rw [d2, d1, hd], r2, by rw [c2]; omega, ?_, ?_,
    by rw [e2, e1, hE]⟩
  · rw [t2, t1, ht]; simp only [List.length_singleton]; omega
  · rw [v2, v1, hv]
    have : vtb_reads [(((2 * j + 1) * 2 ^ 31) % U64, some (((2 * j + 1) * 2 ^ 31 + 5) % U64))]
        = 1 := rfl
    rw [this]; omega



/-- The function `cmp_regs` changes nothing but the diagnostic stream. -/
theorem cmp_regs_frame (s : State) :
    (cmp_regs s).2 = { s with out := (cmp_regs s).2.out } := by
  unfold cmp_regs
  simp only
  split <;> rfl

/-- On a platform `world_of 0 capture` each of the first 100 passes comes back, with
the verdict of `cmp_regs` on the capture of that pass. -/
theorem world_of_one_pass (capture : Nat → Nat → one_spr) (j : Nat) (hj : j < 100)
    (s : State) (h : pass_inv j s) :
    ∃ sb, sleep (world_of 0 capture) 1 (int_of_u64 (before_sleep (world_of 0 capture) s).delay)
          (before_sleep (world_of 0 capture) s) = .ret sb ∧
      one_pass (world_of 0 capture) 1 s
        = .ret (cmp_regs { sb with saved_sprs := capture sb.n_save, n_save := sb.n_save + 1 }) ∧
      pass_inv (j + 1) sb ∧
      pass_inv (j + 1)
        (cmp_regs { sb with saved_sprs := capture sb.n_save, n_save := sb.n_save + 1 }).2 := by
  have hb : pass_inv j (before_sleep (world_of 0 capture) s) := h
  obtain ⟨sb, hsb, hI⟩ := world_of_sleep capture j hj _ hb
  refine ⟨sb, hsb, ?_, hI, ?_⟩
  · unfold one_pass
    rw [main_pass_eq, hsb]
    rfl
  · rw [cmp_regs_frame]
    exact hI

/-- With both tables as `default_sprs` is initialised and the clock settings of `main`,
`cmp_regs` returns 0. -/
theorem cmp_regs_same_tables (s : State) (hE : s.default_sprs = default_sprs_init)
    (hO : s.saved_sprs = default_sprs_init) (hf : s.tb_freq = 512000000)
    (hd : s.delay = 2) : (cmp_regs s).1 = 0 := by
  rcases cmp_regs_cases s with ⟨_, h0, _⟩ | ⟨m, _, htm, hem, _⟩
  · exact h0
  · rw [(tracked_default_sprs_init s hE m).1 htm] at hem
    have heq : spr_equal s DECR = true := by
      unfold spr_equal
      rw [hE, hO, hf, hd]
      decide
    rw [heq] at hem
    exact Bool.noConfusion hem

/-- On the platform `ex_world_good` each of the first 100 passes compares equal. -/
theorem good_one_pass (j : Nat) (hj : j < 100) (s : State) (h : pass_inv j s) :
    ∃ s1, one_pass ex_world_good 1 s = .ret (0, s1) ∧ pass_inv (j + 1) s1 := by
  obtain ⟨sb, _, hp, hI, hI2⟩ := world_of_one_pass (fun _ => default_sprs_init) j hj s h
  have hv : (cmp_regs { sb with saved_sprs := default_sprs_init, n_save := sb.n_save + 1 }).1
      = 0 :=
    cmp_regs_same_tables _ hI.2.2.2.2.2.2 rfl hI.1 hI.2.1
  refine ⟨_, ?_, hI2⟩
  show one_pass (world_of 0 fun _ => default_sprs_init) 1 s = _
  rw [hp]
  exact congrArg Outcome.ret (Prod.ext hv rfl)

/-- The states the loop of `main` reaches on a platform `world_of 0 capture`. -/
theorem world_of_equal_passes (capture : Nat → Nat → one_spr) :
    ∀ {k : Nat} {s sk : State}, EqualPasses (world_of 0 capture) 1 k s sk →
      ∀ j, pass_inv j s → j + k ≤ 100 → pass_inv (j + k) sk := by
  intro k s sk h
  induction h with
  | zero s => intro j hI _; exact hI
  | @succ k s sa sb h1 _ ih =>
    intro j hI hjk
    obtain ⟨sc, _, hp, _, hI2⟩ := world_of_one_pass capture j (by omega) s hI
    rw [hp] at h1
    injection h1 with h1
    have hsa : (cmp_regs
        { sc with saved_sprs := capture sc.n_save, n_save := sc.n_save + 1 }).2 = sa :=
      congrArg Prod.snd h1
    rw [hsa] at hI2
    have := ih (j + 1) hI2 (by omega)
    rwa [show j + 1 + k = j + (k + 1) by omega] at this

/-- On a platform `world_of 0 capture` the guard returns in every pass the loop of
`main` reaches. -/
theorem world_of_guard_returns (capture : Nat → Nat → one_spr) (k : Nat) (sk : State)
    (hk : k < 100)
    (he : EqualPasses (world_of 0 capture) 1 k (main_prologue State.boot) sk) :
    ∃ sb, sleep (world_of 0 capture) 1
        (int_of_u64 (before_sleep (world_of 0 capture) sk).delay)
        (before_sleep (world_of 0 capture) sk) = .ret sb := by
  have hI := world_of_equal_passes capture he 0 main_prologue_inv (by omega)
  rw [Nat.zero_add] at hI
  obtain ⟨sb, hsb, _⟩ := world_of_one_pass capture k hk sk hI
  exact ⟨sb, hsb⟩

/-- On the platform `ex_world_good` no pass the loop of `main` reaches reports a
mismatch. -/
theorem good_no_mismatch (k v : Nat) (sk s1 : State) (hk : k < 100)
    (he : EqualPasses ex_world_good 1 k (main_prologue State.boot) sk)
    (hp : one_pass ex_world_good 1 sk = .ret (v, s1)) : v = 0 := by
  have hI := world_of_equal_passes (fun _ => default_sprs_init) he 0 main_prologue_inv
    (by omega)
  rw [Nat.zero_add] at hI
  obtain ⟨s2, h2, _⟩ := good_one_pass k hk sk hI
  rw [h2] at hp
  injection hp with hp
  exact (congrArg Prod.fst hp).symm



set_option maxRecDepth 100000 in
/-- Witness of C14 (amended), on both ways out.  On a platform where every capture is
identical to `default_sprs`, the guard returns in each pass, the loop is left with the
budget at 0 and `main` returns 0 with the terminate request for "PASS" loaded and no
terminate call issued; on a platform where every capture mismatches, the loop is left
with the budget at 100 and `main` returns 0 with the request for "FAIL" loaded and
no terminate call issued. -/
theorem main_returns_witness :
    ((100 : Nat) ≤ 100 ∧
      (∀ k sk, k < 100 → EqualPasses ex_world_good 1 k (main_prologue State.boot) sk →
        ∃ sb, sleep ex_world_good 1 (int_of_u64 (before_sleep ex_world_good sk).delay)
          (before_sleep ex_world_good sk) = .ret sb) ∧
      ∃ s1, main_loop ex_world_good 1 100 100 (main_prologue State.boot) = .ret (s1, 0) ∧
        main ex_world_good 100 1 State.boot = .ret (0, main_status ex_world_good 0 s1) ∧
        (main_status ex_world_good 0 s1).rtas_argbuf.token = bswap32 RTAS_OS_TERM ∧
        (main_status ex_world_good 0 s1).rtas_argbuf.nargs = bswap32 1 ∧
        (main_status ex_world_good 0 s1).rtas_argbuf.args 0 = bswap32 0x2008 ∧
        ex_world_good.str_PASS = 0x2008 ∧
        (main_status ex_world_good 0 s1).calls = s1.calls ∧
        term_halts ex_world_good ∧ no_term_call State.boot ∧
        no_term_call (main_status ex_world_good 0 s1)) ∧
    ((∀ k sk, k < 100 → EqualPasses ex_world_bad 1 k (main_prologue State.boot) sk →
        ∃ sb, sleep ex_world_bad 1 (int_of_u64 (before_sleep ex_world_bad sk).delay)
          (before_sleep ex_world_bad sk) = .ret sb) ∧
      ∃ s1, main_loop ex_world_bad 1 100 100 (main_prologue State.boot) = .ret (s1, 100) ∧
        main ex_world_bad 100 1 State.boot = .ret (0, main_status ex_world_bad 100 s1) ∧
        (main_status ex_world_bad 100 s1).rtas_argbuf.token = bswap32 RTAS_OS_TERM ∧
        (main_status ex_world_bad 100 s1).rtas_argbuf.nargs = bswap32 1 ∧
        (main_status ex_world_bad 100 s1).rtas_argbuf.args 0 = bswap32 0x2000 ∧
        ex_world_bad.str_FAIL = 0x2000 ∧
        (main_status ex_world_bad 100 s1).calls = s1.calls ∧
        no_term_call (main_status ex_world_bad 100 s1)) := by
  have hboot : no_term_call State.boot := fun x hx => absurd hx (List.not_mem_nil x)
  have hg : ∀ k sk, k < 100 → EqualPasses ex_world_good 1 k (main_prologue State.boot) sk →
      ∃ sb, sleep ex_world_good 1 (int_of_u64 (before_sleep ex_world_good sk).delay)
        (before_sleep ex_world_good sk) = .ret sb :=
    fun k sk hk he => world_of_guard_returns (fun _ => default_sprs_init) k sk hk he
  have hb : ∀ k sk, k < 100 → EqualPasses ex_world_bad 1 k (main_prologue State.boot) sk →
      ∃ sb, sleep ex_world_bad 1 (int_of_u64 (before_sleep ex_world_bad sk).delay)
        (before_sleep ex_world_bad sk) = .ret sb :=
    fun k sk hk he => world_of_guard_returns (fun _ => ex_capture_bad) k sk hk he
  refine ⟨⟨Nat.le_refl _, hg, ?_⟩, ⟨hb, ?_⟩⟩
  · obtain ⟨s1, it, hl, hm, h3, h4, h5, h6, h7⟩ :=
      main_returns ex_world_good 100 1 State.boot (Nat.le_refl _) hg
    have hit : it = 0 := by
      rcases main_loop_ret ex_world_good 1 100 100 (main_prologue State.boot) s1 it hl
          (by decide) (by decide) with ⟨h0, _⟩ | ⟨k, sk, v, hk, he, hp, hv, _⟩
      · exact h0
      · exact absurd (good_no_mismatch k v sk s1 hk he hp) hv
    subst hit
    exact ⟨s1, hl, hm, h3, h4, h5, rfl, h6, world_of_term_halts 0 _, hboot,
      h7 (world_of_term_halts 0 _) hboot⟩
  · obtain ⟨s1, it, hl, hm, h3, h4, h5, h6, h7⟩ :=
      main_returns ex_world_bad 100 1 State.boot (Nat.le_refl _) hb
    have hev : (main_loop ex_world_bad 1 100 100 (main_prologue State.boot)).val?.map Prod.snd
        = some 100 := by decide
    have hit : it = 100 := by
      rw [hl] at hev
      exact Option.some.inj hev
    subst hit
    exact ⟨s1, hl, hm, h3, h4, h5, rfl, h6, h7 (world_of_term_halts 0 _) hboot⟩

end Migration
